import Mathlib

/-!
The formatting core of `logger.go` (echo-pretty-logger).

A shallow embedding of `logger.go` (package `prettylogger`): its formatting
functions as pure functions, the middleware `Logger` with the request context
passed explicitly, and the properties of them that the specification states.

Modelling conventions:

* A Go `string` is an immutable sequence of bytes and `len` counts bytes, so a
  string is a `List (Fin 256)`.
* A Go `int` is modelled by `Int`.  The only integer arithmetic in the functions
  of `logger.go` is `m / 2`, `m % 2`, `firstHalf + m % 2`, `len(s) - secondHalf`
  and `desiredLength - len(s)`, each executed under a guard that keeps the result
  between `0` and one of the operands, so no 64-bit wrap-around can occur there.
  Go's `/` and `%` truncate toward zero: `Int.tdiv` and `Int.tmod`.  Where the
  standard library computes on `uint64` or `int64` (`strconv.Atoi`), the
  wrap-around is explicit.
* A run-time panic (an explicit `panic`, a slice bound out of range, a negative
  `strings.Repeat` count) is an `Except.error`; normal return is `Except.ok`.
-/

namespace PrettyLogger

/-- One byte of a Go string. -/
abbrev Byte := Fin 256

/-- A Go `string`: a sequence of bytes; `len(s)` is `s.length`. -/
abbrev GoString := List Byte

/-- The run-time panics the embedded code can raise. -/
inductive Panic where
  /-- The explicit `panic("color must be a valid ANSI color code")` of `colorize`. -/
  | invalidColor
  /-- Slice bounds out of range in `s[:hi]` or `s[lo:]`. -/
  | sliceBounds
  /-- A negative count passed to `strings.Repeat`. -/
  | negativeRepeat
  deriving DecidableEq, Repr

deriving instance DecidableEq for Except

/-- The result of running an embedded Go function: a value or a panic. -/
abbrev Result (α : Type) := Except Panic α

/-! ## Byte constants -/

/-- The escape byte `\033`. -/
def esc : Byte := 27
/-- The byte `' '`. -/
def space : Byte := 32
/-- The byte `'-'`. -/
def minus : Byte := 45
/-- The byte `'.'`. -/
def dot : Byte := 46
/-- The byte `'/'`. -/
def slash : Byte := 47
/-- The byte `'0'`. -/
def zero : Byte := 48
/-- The byte `'3'`. -/
def three : Byte := 51
/-- The byte `';'`. -/
def semicolon : Byte := 59
/-- The byte `'['`. -/
def lbracket : Byte := 91
/-- The byte `'m'`. -/
def letterM : Byte := 109

/-! ## The colour constants (`logger.go`, lines 15-23) -/

/-- The constant `reset = "\033[0m"`. -/
def reset : GoString := [esc, lbracket, zero, letterM]
/-- The constant `red = "\033[0;31m"`. -/
def red : GoString := [esc, lbracket, zero, semicolon, three, 49, letterM]
/-- The constant `green = "\033[0;32m"`. -/
def green : GoString := [esc, lbracket, zero, semicolon, three, 50, letterM]
/-- The constant `yellow = "\033[0;33m"`. -/
def yellow : GoString := [esc, lbracket, zero, semicolon, three, 51, letterM]
/-- The constant `blue = "\033[0;34m"`. -/
def blue : GoString := [esc, lbracket, zero, semicolon, three, 52, letterM]
/-- The constant `magenta = "\033[0;35m"`. -/
def magenta : GoString := [esc, lbracket, zero, semicolon, three, 53, letterM]
/-- The constant `cyan = "\033[0;36m"`. -/
def cyan : GoString := [esc, lbracket, zero, semicolon, three, 54, letterM]

/-- The literal `"\033[0;3"` that `colorize` tests for. -/
def colorPrefix : GoString := [esc, lbracket, zero, semicolon, three]

/-- The literal `"..."` that `fitString` inserts. -/
def ellipsis : GoString := [dot, dot, dot]

/-! ## Go built-ins used by the source -/

/-- Go's `strings.HasPrefix(s, p)`. -/
def hasPrefix (s p : GoString) : Bool :=
  decide (p.length ≤ s.length) && decide (s.take p.length = p)

/-- Go's slice expression `s[:hi]`; panics unless `0 ≤ hi ≤ len(s)`. -/
def sliceTo (s : GoString) (hi : Int) : Result GoString :=
  if 0 ≤ hi ∧ hi ≤ (s.length : Int) then .ok (s.take hi.toNat) else .error .sliceBounds

/-- Go's slice expression `s[lo:]`; panics unless `0 ≤ lo ≤ len(s)`. -/
def sliceFrom (s : GoString) (lo : Int) : Result GoString :=
  if 0 ≤ lo ∧ lo ≤ (s.length : Int) then .ok (s.drop lo.toNat) else .error .sliceBounds

/-- Go's `strings.Repeat(" ", count)`; panics on a negative count. -/
def repeatSpace (count : Int) : Result GoString :=
  if count < 0 then .error .negativeRepeat else .ok (List.replicate count.toNat space)

/-! ## `colorize` (lines 25-32) -/

/-- The function `colorize(s, color)`. -/
def colorize (s color : GoString) : Result GoString :=
  if !hasPrefix color colorPrefix then
    .error .invalidColor
  else
    .ok (color ++ s ++ reset)

/-! ## `fitString` (lines 53-76) -/

/-- The function `fitString(s, desiredLength, padLeft, maxAllowedLength)`. -/
def fitString (s : GoString) (desiredLength : Int) (padLeft : Bool)
    (maxAllowedLength : Int) : Result GoString :=
  if maxAllowedLength > 0 ∧ (s.length : Int) > maxAllowedLength then do
    let firstHalfLength := Int.tdiv maxAllowedLength 2
    let secondHalfLength := firstHalfLength + Int.tmod maxAllowedLength 2
    let front ← sliceTo s firstHalfLength
    let back ← sliceFrom s ((s.length : Int) - secondHalfLength)
    pure (front ++ ellipsis ++ back)
  else
    let currentLength : Int := s.length
    if currentLength < desiredLength then do
      let padding ← repeatSpace (desiredLength - currentLength)
      if padLeft then
        pure (padding ++ s)
      else
        pure (s ++ padding)
    else
      pure s

/-! ## `formatPath` (lines 78-85) -/

/-- The function `formatPath(path)`. -/
def formatPath (path : GoString) : Result GoString :=
  let path := if path = [] then [slash] else path
  fitString path 40 false 37

/-! ## `strconv.Itoa` and `colorizeStatus` (lines 34-51) -/

/-- The ASCII digit for `d % 10`. -/
def digit (d : Nat) : Byte := ⟨48 + d % 10, by omega⟩

/-- Decimal digits of `n`, most significant first, pushed in front of `acc`;
`fuel` bounds the number of digits produced. -/
def natDigitsAux : Nat → Nat → GoString → GoString
  | 0, _, acc => acc
  | fuel + 1, n, acc =>
    if n / 10 = 0 then digit n :: acc else natDigitsAux fuel (n / 10) (digit n :: acc)

/-- The decimal representation of a natural number (no sign, no leading zeros,
`"0"` for zero). -/
def natDigits (n : Nat) : GoString := natDigitsAux (n + 1) n []

/-- Go's `strconv.Itoa`. -/
def itoa (n : Int) : GoString :=
  if n < 0 then minus :: natDigits n.natAbs else natDigits n.natAbs

/-- The function `colorizeStatus(statusCode)`. -/
def colorizeStatus (statusCode : Int) : Result GoString :=
  let color : GoString :=
    if statusCode ≥ 200 ∧ statusCode < 300 then green
    else if statusCode ≥ 300 ∧ statusCode < 400 then cyan
    else if statusCode ≥ 400 ∧ statusCode < 500 then red
    else if statusCode ≥ 500 then magenta
    else yellow
  colorize (itoa statusCode) color

/-! ## `formatBytes` (lines 94-116)

`formatBytes` converts its argument to `float64`, divides by a power of two and
prints with `%.2f`.  Every `float64` that occurs is an integer divided by a power
of two, so the values are represented exactly:

* `float64(bytes)` is the integer nearest to `bytes` that has a 53-bit
  significand, ties going to the even significand (IEEE 754 round-to-nearest-even);
* dividing a `float64` by `1<<10`, `1<<20` or `1<<30` only lowers the exponent
  and is exact;
* `%.2f` prints the exact binary value correctly rounded to two fractional
  digits, ties going to the even digit.
-/

/-- A `float64` value of the form `num / 2 ^ shift`. -/
structure Dyadic where
  /-- The integer numerator. -/
  num : Int
  /-- The binary exponent of the denominator. -/
  shift : Nat
  deriving DecidableEq, Repr

/-- The position of the highest set bit of `n` (`0` for `n < 2`), looking at no
more than `fuel` bits. -/
def highBit : Nat → Nat → Nat
  | 0, _ => 0
  | fuel + 1, n => if n < 2 then 0 else highBit fuel (n / 2) + 1

/-- The conversion `float64(n)` for a natural number below `2^64`: the value of
the nearest `float64`, which is again an integer. -/
def float64OfNat (n : Nat) : Nat :=
  if n < 2 ^ 53 then n
  else
    let e := highBit 64 n - 52
    let q := n / 2 ^ e
    let r := n % 2 ^ e
    let q := if 2 * r > 2 ^ e ∨ (2 * r = 2 ^ e ∧ q % 2 = 1) then q + 1 else q
    q * 2 ^ e

/-- The conversion `float64(n)` for a Go `int`. -/
def float64OfInt (n : Int) : Dyadic :=
  ⟨if n < 0 then -(float64OfNat n.natAbs : Int) else (float64OfNat n.natAbs : Int), 0⟩

/-- Division of a `float64` by the constant `1 << k`. -/
def Dyadic.divPow2 (x : Dyadic) (k : Nat) : Dyadic := ⟨x.num, x.shift + k⟩

/-- The integer nearest to `a / b`, ties going to the even one. -/
def roundHalfEven (a b : Nat) : Nat :=
  let q := a / b
  let r := a % b
  if 2 * r > b ∨ (2 * r = b ∧ q % 2 = 1) then q + 1 else q

/-- The decimal rendering, with exactly two fractional digits, of `h / 100`. -/
def renderHundredths (h : Nat) : GoString :=
  natDigits (h / 100) ++ [dot, digit (h / 10), digit h]

/-- The verb `%.2f` of `fmt.Sprintf` applied to a `float64`. -/
def sprintf2f (x : Dyadic) : GoString :=
  let body := renderHundredths (roundHalfEven (100 * x.num.natAbs) (2 ^ x.shift))
  if x.num < 0 then minus :: body else body

/-- The literal `"Gb"`. -/
def unitGb : GoString := [71, 98]
/-- The literal `"Mb"`. -/
def unitMb : GoString := [77, 98]
/-- The literal `"Kb"`. -/
def unitKb : GoString := [75, 98]
/-- The literal `"b"`. -/
def unitB : GoString := [98]

/-- The function `formatBytes(bytes)`. -/
def formatBytes (bytes : Int) : GoString :=
  let (unit, value) : GoString × Dyadic :=
    if bytes ≥ 2 ^ 30 then (unitGb, (float64OfInt bytes).divPow2 30)
    else if bytes ≥ 2 ^ 20 then (unitMb, (float64OfInt bytes).divPow2 20)
    else if bytes ≥ 2 ^ 10 then (unitKb, (float64OfInt bytes).divPow2 10)
    else (unitB, float64OfInt bytes)
  sprintf2f value ++ unit

/-! ## `strconv.Atoi` and `getBytesIn` (lines 87-92)

`getBytesIn` calls `strconv.Atoi` and drops its error.  `Atoi` is embedded from
the Go standard library for a 64-bit `int`: a fast path for strings of 1 to 18
bytes, and `ParseInt(s, 10, 0)`, that is `ParseUint` on the part after the sign,
for all others.  The arithmetic of `ParseUint` is on `uint64`: the sum that can
wrap is taken modulo `2 ^ 64`.
-/

/-- The two kinds of `strconv.NumError`. -/
inductive NumError where
  /-- The error `strconv.ErrSyntax`. -/
  | errSyntax
  /-- The error `strconv.ErrRange`. -/
  | errRange
  deriving DecidableEq, Repr

/-- The largest `uint64`. -/
def maxUint64 : Nat := 2 ^ 64 - 1

/-- The loop of `strconv.ParseUint(s, 10, 64)` over the bytes of `s`, `n` being
the value read so far. -/
def parseUintLoop : GoString → Nat → Nat × Option NumError
  | [], n => (n, none)
  | c :: rest, n =>
    if ¬ (48 ≤ c.val ∧ c.val ≤ 57) then (0, some .errSyntax)
    else if n ≥ maxUint64 / 10 + 1 then (maxUint64, some .errRange)
    else
      let n10 := n * 10
      let n1 := (n10 + (c.val - 48)) % 2 ^ 64
      if n1 < n10 ∨ n1 > maxUint64 then (maxUint64, some .errRange)
      else parseUintLoop rest n1

/-- The function `strconv.ParseUint(s, 10, 64)`. -/
def parseUint (s : GoString) : Nat × Option NumError :=
  if s = [] then (0, some .errSyntax) else parseUintLoop s 0

/-- The conversion of an integer to `int64`, wrapping around. -/
def wrapInt64 (n : Int) : Int := (n + 2 ^ 63) % 2 ^ 64 - 2 ^ 63

/-- The function `strconv.ParseInt(s, 10, 0)` with a 64-bit `int`. -/
def parseInt (s : GoString) : Int × Option NumError :=
  if s = [] then (0, some .errSyntax)
  else
    let neg : Bool := decide (s.head? = some 45)
    let body := if s.head? = some 43 ∨ s.head? = some 45 then s.tail else s
    let (un, err) := parseUint body
    if err = some .errSyntax then (0, err)
    else if !neg ∧ un ≥ 2 ^ 63 then (2 ^ 63 - 1, some .errRange)
    else if neg ∧ un > 2 ^ 63 then (-(2 ^ 63), some .errRange)
    else
      let n := wrapInt64 un
      (if neg then wrapInt64 (-n) else n, err)

/-- The loop of the fast path of `strconv.Atoi`; `none` on a byte that is not a
digit. -/
def atoiLoop : GoString → Int → Option Int
  | [], n => some n
  | ch :: rest, n =>
    if ¬ (48 ≤ ch.val ∧ ch.val ≤ 57) then none else atoiLoop rest (n * 10 + ((ch.val - 48 : Nat) : Int))

/-- The function `strconv.Atoi(s)` with a 64-bit `int`: the value and the error. -/
def atoi (s : GoString) : Int × Option NumError :=
  if 0 < s.length ∧ s.length < 19 then
    let signed : Bool := decide (s.head? = some 45 ∨ s.head? = some 43)
    let body := if signed then s.tail else s
    if signed ∧ body.length < 1 then (0, some .errSyntax)
    else
      match atoiLoop body 0 with
      | none => (0, some .errSyntax)
      | some n => (if s.head? = some 45 then -n else n, none)
  else
    parseInt s

/-- The part of an `http.Request` that `Logger` reads. -/
structure Request where
  /-- The field `req.Method`. -/
  method : GoString
  /-- The field `req.URL.Path`. -/
  path : GoString
  /-- The value of `req.Header.Get("Content-Length")`, empty when the header is absent. -/
  contentLength : GoString
  deriving DecidableEq, Repr

/-- The function `getBytesIn(req)`. -/
def getBytesIn (req : Request) : Int := (atoi req.contentLength).1

/-! ## `Logger` (lines 118-155)

The request context is passed explicitly.  `req` and `res` are the objects behind
the pointers that `Logger` takes before it calls `next`; their fields are read
after the call, in the state the handler and `c.Error` left them.  The sink is
the list of lines handed to `log.Println`, oldest first.  The wrapped handler and
`c.Error` are state transformers supplied by the host, and the two readings of
the clock are inputs: the text of `time.Now().Format("15:04:05")` and the number
`duration.Milliseconds()`.
-/

/-- The part of an `echo.Response` that `Logger` reads. -/
structure Response where
  /-- The field `res.Status`. -/
  status : Int
  /-- The field `res.Size`. -/
  size : Int
  deriving DecidableEq, Repr

/-- The state an `echo.Context` gives access to. -/
structure Context where
  /-- The request. -/
  req : Request
  /-- The response. -/
  res : Response
  /-- The lines handed to `log.Println` so far. -/
  sink : List GoString
  deriving DecidableEq, Repr

/-- An `echo.HandlerFunc` that returns: the error it returns (`none` for `nil`)
and the state it leaves. -/
abbrev HandlerFunc (ε : Type) := Context → Option ε × Context

/-- The literal `" "`. -/
def sepSpace : GoString := [32]
/-- The literal between method and path in the format string of `Logger`, bytes
`20 c3 a2 e2 80 a0 e2 80 99 20` in `logger.go`. -/
def sepArrow : GoString := [32, 195, 162, 226, 128, 160, 226, 128, 153, 32]
/-- The literal `" ("`. -/
def sepOpen : GoString := [32, 40]
/-- The literal `") "`. -/
def sepClose : GoString := [41, 32]
/-- The literal `" [ "`. -/
def sepLeft : GoString := [32, 91, 32]
/-- The literal `" | "`. -/
def sepBar : GoString := [32, 124, 32]
/-- The literal `" ]"`. -/
def sepRight : GoString := [32, 93]
/-- The literal `"In: "`. -/
def labelIn : GoString := [73, 110, 58, 32]
/-- The literal `"Out: "`. -/
def labelOut : GoString := [79, 117, 116, 58, 32]
/-- The literal `"ms"`. -/
def suffixMs : GoString := [109, 115]

/-- Lines 129-149 of `Logger`: the message built from the timestamp text `now`,
the elapsed milliseconds and the request and response. -/
def logMessage (now : GoString) (milliseconds : Int) (req : Request) (res : Response) :
    Result GoString := do
  let durationMs := itoa milliseconds ++ suffixMs
  let method ← colorize (← fitString req.method 7 false 0) yellow
  let path ← formatPath req.path
  let status ← colorizeStatus res.status
  let bytesIn := labelIn ++ (← colorize (← fitString (formatBytes (getBytesIn req)) 9 true 0) magenta)
  let bytesOut := labelOut ++ (← colorize (← fitString (formatBytes res.size) 9 true 0) cyan)
  let durationColored ← colorize (← fitString durationMs 7 true 0) blue
  pure (now ++ sepSpace ++ method ++ sepArrow ++ path ++ sepOpen ++ status ++ sepClose
    ++ durationColored ++ sepLeft ++ bytesIn ++ sepBar ++ bytesOut ++ sepRight)

/-- The handler returned by `Logger(next)`, applied to a context: the error it
returns and the state it leaves, or a panic. -/
def Logger {ε : Type} (onError : ε → Context → Context) (now : GoString) (milliseconds : Int)
    (next : HandlerFunc ε) (c : Context) : Result (Option ε × Context) := do
  let (err, c) := next c
  let c := match err with
    | some e => onError e c
    | none => c
  let message ← logMessage now milliseconds c.req c.res
  pure (none, { c with sink := c.sink ++ [message] })

/-! ## Notions used to state the properties -/

/-- The value of a string of decimal digits read after the value `n`; `none` when
some byte is not a digit. -/
def digitsValue : GoString → Nat → Option Nat
  | [], n => some n
  | c :: rest, n =>
    if 48 ≤ c.val ∧ c.val ≤ 57 then digitsValue rest (n * 10 + (c.val - 48)) else none

/-- The integer a string denotes in decimal: an optional sign `+` or `-` and at
least one digit; `none` for every other string. -/
def decimalInteger : GoString → Option Int
  | [] => none
  | c :: rest =>
    if c = 45 then
      if rest = [] then none else Option.map (fun (v : Nat) => -(v : Int)) (digitsValue rest 0)
    else if c = 43 then
      if rest = [] then none else Option.map (fun (v : Nat) => (v : Int)) (digitsValue rest 0)
    else Option.map (fun (v : Nat) => (v : Int)) (digitsValue (c :: rest) 0)

/-- The state in which `Logger` builds its message: the wrapped handler has
returned and, if it returned an error, `c.Error` has run. -/
def handled {ε : Type} (onError : ε → Context → Context) (next : HandlerFunc ε)
    (c : Context) : Context :=
  match (next c).1 with
  | some e => onError e (next c).2
  | none => (next c).2

/-- The separator `" → "` of the specification, the arrow being U+2192 in UTF-8
(bytes `e2 86 92`). -/
def arrowUtf8 : GoString := [32, 226, 134, 146, 32]

/-! ## Auxiliary facts -/

theorem floor_half (m : Int) : ⌊(m : ℚ) / 2⌋ = m / 2 := by
  have h := Rat.floor_intCast_div_natCast m 2
  simpa using h

theorem ceil_half (m : Int) : ⌈(m : ℚ) / 2⌉ = (m + 1) / 2 := by
  rw [Int.ceil_eq_iff]
  have h1 : (m + 1) % 2 = 0 ∨ (m + 1) % 2 = 1 := by omega
  have h2 := Int.ediv_add_emod (m + 1) 2
  have h3 : ((2 * ((m + 1) / 2) + (m + 1) % 2 : Int) : ℚ) = ((m + 1 : Int) : ℚ) := by rw [h2]
  push_cast at h3
  rcases h1 with h | h <;> rw [h] at h3 <;> push_cast at h3 <;> constructor <;> linarith

/-- The truncation branch of `fitString`, with the halves written as natural numbers. -/
theorem fitString_truncate_eq (s : GoString) (d : Int) (padLeft : Bool) (m : Int)
    (hm : 0 < m) (hlen : m < (s.length : Int)) :
    fitString s d padLeft m
      = .ok (s.take (m / 2).toNat ++ ellipsis ++ s.drop (s.length - ((m + 1) / 2).toNat)) := by
  have hdiv : Int.tdiv m 2 = m / 2 := Int.tdiv_eq_ediv (le_of_lt hm) (by decide)
  have hmod : Int.tmod m 2 = m % 2 := Int.tmod_eq_emod (le_of_lt hm) (by decide)
  have hc1 : 0 ≤ m / 2 ∧ m / 2 ≤ (s.length : Int) := by omega
  have hc2 : 0 ≤ (s.length : Int) - (m / 2 + m % 2)
      ∧ (s.length : Int) - (m / 2 + m % 2) ≤ (s.length : Int) := by omega
  have hidx : ((s.length : Int) - (m / 2 + m % 2)).toNat = s.length - ((m + 1) / 2).toNat := by
    omega
  have hguard : m > 0 ∧ (s.length : Int) > m := ⟨hm, hlen⟩
  simp only [fitString, if_pos hguard, hdiv, hmod, sliceTo, sliceFrom, if_pos hc1, if_pos hc2,
    hidx]
  rfl

/-- The branches of `fitString` below the truncation test, when that test fails. -/
theorem fitString_no_truncate (s : GoString) (d : Int) (padLeft : Bool) (m : Int)
    (h : m ≤ 0 ∨ (s.length : Int) ≤ m) :
    fitString s d padLeft m
      = if (s.length : Int) < d then
          .ok (if padLeft then List.replicate (d - s.length).toNat space ++ s
            else s ++ List.replicate (d - s.length).toNat space)
        else .ok s := by
  have hguard : ¬ (m > 0 ∧ (s.length : Int) > m) := by omega
  simp only [fitString, if_neg hguard]
  by_cases hd : (s.length : Int) < d
  · have hcount : ¬ (d - (s.length : Int) < 0) := by omega
    simp only [if_pos hd, repeatSpace, if_neg hcount]
    cases padLeft <;> rfl
  · simp only [if_neg hd]
    rfl

/-- A colour that starts with `"\033[0;3"` passes the test of `colorize`. -/
theorem colorize_of_hasPrefix (s color : GoString) (h : hasPrefix color colorPrefix = true) :
    colorize s color = .ok (color ++ s ++ reset) := by
  simp [colorize, h]

/-- The length of what `fitString` returns outside the truncation branch. -/
theorem fitString_no_truncate_length (s t : GoString) (d : Int) (padLeft : Bool) (m : Int)
    (h : m ≤ 0 ∨ (s.length : Int) ≤ m) (ht : fitString s d padLeft m = .ok t) :
    (t.length : Int) = max (s.length : Int) d := by
  rw [fitString_no_truncate s d padLeft m h] at ht
  by_cases hd : (s.length : Int) < d
  · rw [if_pos hd] at ht
    injection ht with ht
    subst ht
    cases padLeft <;> simp <;> omega
  · rw [if_neg hd] at ht
    injection ht with ht
    subst ht
    omega

/-- The result of `roundHalfEven a b` is within one half of `a / b`. -/
theorem roundHalfEven_near (a b : Nat) (hb : 0 < b) :
    |(a : ℚ) / b - (roundHalfEven a b : ℚ)| ≤ 1 / 2 := by
  have hbq : (0 : ℚ) < b := by exact_mod_cast hb
  have hdm : (a : ℚ) = b * (a / b : Nat) + (a % b : Nat) := by
    exact_mod_cast (Nat.div_add_mod a b).symm
  have hr : ((a % b : Nat) : ℚ) < b := by exact_mod_cast Nat.mod_lt a hb
  have hr0 : (0 : ℚ) ≤ ((a % b : Nat) : ℚ) := by positivity
  have hsplit : (a : ℚ) / b = (a / b : Nat) + ((a % b : Nat) : ℚ) / b := by
    field_simp
    linarith
  unfold roundHalfEven
  simp only
  split_ifs with h
  · have h2 : (b : ℚ) ≤ 2 * ((a % b : Nat) : ℚ) := by
      have : b ≤ 2 * (a % b) := by omega
      exact_mod_cast this
    rw [hsplit, abs_le]
    push_cast
    constructor
    · have : (1 : ℚ) / 2 ≤ ((a % b : Nat) : ℚ) / b := by
        rw [le_div_iff₀ hbq]
        linarith
      linarith
    · have : ((a % b : Nat) : ℚ) / b < 1 := by
        rw [div_lt_one hbq]
        exact hr
      linarith
  · have h2 : 2 * ((a % b : Nat) : ℚ) ≤ b := by
      have : 2 * (a % b) ≤ b := by omega
      exact_mod_cast this
    rw [hsplit, abs_le]
    constructor
    · have : (0 : ℚ) ≤ ((a % b : Nat) : ℚ) / b := by positivity
      linarith
    · have : ((a % b : Nat) : ℚ) / b ≤ 1 / 2 := by
        rw [div_le_iff₀ hbq]
        linarith
      linarith

/-- The verb `%.2f` prints a non-negative `n / 2 ^ k` as some `h / 100` that is
within `1 / 200` of it. -/
theorem sprintf2f_near (n k : Nat) :
    ∃ h : Nat, sprintf2f ⟨(n : Int), k⟩ = renderHundredths h
      ∧ |(n : ℚ) / 2 ^ k - (h : ℚ) / 100| ≤ 1 / 200 := by
  refine ⟨roundHalfEven (100 * n) (2 ^ k), ?_, ?_⟩
  · have hneg : ¬ ((n : Int) < 0) := by omega
    simp only [sprintf2f, if_neg hneg, Int.natAbs_ofNat]
  · have hnear := roundHalfEven_near (100 * n) (2 ^ k) (by positivity)
    rw [abs_le] at hnear ⊢
    push_cast at hnear
    have he : (100 * (n : ℚ)) / 2 ^ k = 100 * ((n : ℚ) / 2 ^ k) := by ring
    rw [he] at hnear
    constructor <;> linarith [hnear.1, hnear.2]

/-- Integers below `2 ^ 53` are converted to `float64` without rounding. -/
theorem float64OfInt_exact (n : Nat) (h : n < 2 ^ 53) : float64OfInt (n : Int) = ⟨(n : Int), 0⟩ := by
  have hneg : ¬ ((n : Int) < 0) := by omega
  simp only [float64OfInt, if_neg hneg, Int.natAbs_ofNat, float64OfNat, if_pos h]

/-- Rounding to the nearest integer leaves an integer as it is. -/
theorem roundHalfEven_one (a : Nat) : roundHalfEven a (2 ^ 0) = a := by
  simp [roundHalfEven, Nat.mod_one]

/-- A whole number is rendered with the fractional digits `00`. -/
theorem renderHundredths_whole (n : Nat) :
    renderHundredths (100 * n) = natDigits n ++ [dot, zero, zero] := by
  have h1 : 100 * n / 100 = n := by omega
  have h2 : digit (100 * n / 10) = zero := by
    simp only [digit, zero]
    apply Fin.ext
    show 48 + 100 * n / 10 % 10 = 48
    omega
  have h3 : digit (100 * n) = zero := by
    simp only [digit, zero]
    apply Fin.ext
    show 48 + 100 * n % 10 = 48
    omega
  simp only [renderHundredths, h1, h2, h3]



/-- The test of `colorize` holds exactly for the strings that start with
`"\033[0;3"`. -/
theorem hasPrefix_iff (s p : GoString) : hasPrefix s p = true ↔ p <+: s := by
  simp only [hasPrefix, Bool.and_eq_true, decide_eq_true_eq]
  constructor
  · rintro ⟨_, h⟩
    exact List.prefix_iff_eq_take.mpr h.symm
  · intro h
    exact ⟨h.length_le, (List.prefix_iff_eq_take.mp h).symm⟩

/-- No slice of `fitString` is out of range and `strings.Repeat` gets no negative
count: `fitString` returns. -/
theorem fitString_total (s : GoString) (d : Int) (padLeft : Bool) (m : Int) :
    ∃ t : GoString, fitString s d padLeft m = .ok t := by
  by_cases hg : 0 < m ∧ m < (s.length : Int)
  · exact ⟨_, fitString_truncate_eq s d padLeft m hg.1 hg.2⟩
  · rw [fitString_no_truncate s d padLeft m (by omega)]
    by_cases hd : (s.length : Int) < d
    · exact ⟨_, if_pos hd⟩
    · exact ⟨_, if_neg hd⟩

/-- The function `formatPath` returns. -/
theorem formatPath_total (path : GoString) : ∃ t : GoString, formatPath path = .ok t :=
  fitString_total _ 40 false 37

/-- The function `colorizeStatus` returns. -/
theorem colorizeStatus_total (code : Int) : ∃ t : GoString, colorizeStatus code = .ok t := by
  unfold colorizeStatus
  simp only
  split_ifs <;> exact ⟨_, colorize_of_hasPrefix _ _ (by decide)⟩

/-- The message of `Logger`, field by field. -/
theorem logMessage_layout (now : GoString) (milliseconds : Int) (req : Request)
    (res : Response) :
    ∃ m p st i o d : GoString,
      fitString req.method 7 false 0 = .ok m
      ∧ formatPath req.path = .ok p
      ∧ colorizeStatus res.status = .ok st
      ∧ fitString (formatBytes (getBytesIn req)) 9 true 0 = .ok i
      ∧ fitString (formatBytes res.size) 9 true 0 = .ok o
      ∧ fitString (itoa milliseconds ++ suffixMs) 7 true 0 = .ok d
      ∧ logMessage now milliseconds req res
        = .ok (now ++ sepSpace ++ (yellow ++ m ++ reset) ++ sepArrow ++ p ++ sepOpen ++ st
            ++ sepClose ++ (blue ++ d ++ reset) ++ sepLeft
            ++ (labelIn ++ (magenta ++ i ++ reset)) ++ sepBar
            ++ (labelOut ++ (cyan ++ o ++ reset)) ++ sepRight) := by
  obtain ⟨m, hm⟩ := fitString_total req.method 7 false 0
  obtain ⟨p, hp⟩ := formatPath_total req.path
  obtain ⟨st, hst⟩ := colorizeStatus_total res.status
  obtain ⟨i, hi⟩ := fitString_total (formatBytes (getBytesIn req)) 9 true 0
  obtain ⟨o, ho⟩ := fitString_total (formatBytes res.size) 9 true 0
  obtain ⟨d, hd⟩ := fitString_total (itoa milliseconds ++ suffixMs) 7 true 0
  refine ⟨m, p, st, i, o, d, hm, hp, hst, hi, ho, hd, ?_⟩
  have hy : ∀ t, colorize t yellow = .ok (yellow ++ t ++ reset) :=
    fun t => colorize_of_hasPrefix t yellow (by decide)
  have hb : ∀ t, colorize t blue = .ok (blue ++ t ++ reset) :=
    fun t => colorize_of_hasPrefix t blue (by decide)
  have hma : ∀ t, colorize t magenta = .ok (magenta ++ t ++ reset) :=
    fun t => colorize_of_hasPrefix t magenta (by decide)
  have hc : ∀ t, colorize t cyan = .ok (cyan ++ t ++ reset) :=
    fun t => colorize_of_hasPrefix t cyan (by decide)
  simp only [logMessage, hm, hp, hst, hi, ho, hd, hy, hb, hma, hc, bind, Except.bind, pure,
    Except.pure]

/-- The handler returned by `Logger` returns `nil` and leaves the state that the
wrapped handler and `c.Error` left, with the message appended to the sink. -/
theorem Logger_eq {ε : Type} (onError : ε → Context → Context) (now : GoString)
    (milliseconds : Int) (next : HandlerFunc ε) (c : Context) :
    ∃ line : GoString,
      logMessage now milliseconds (handled onError next c).req (handled onError next c).res
        = .ok line
      ∧ Logger onError now milliseconds next c
        = .ok (none, { handled onError next c with
            sink := (handled onError next c).sink ++ [line] }) := by
  obtain ⟨m, p, st, i, o, d, -, -, -, -, -, -, hline⟩ :=
    logMessage_layout now milliseconds (handled onError next c).req (handled onError next c).res
  refine ⟨_, hline, ?_⟩
  unfold handled at hline ⊢
  unfold Logger
  rcases hn : next c with ⟨err, c1⟩
  rw [hn] at hline
  cases err with
  | none =>
    simp only at hline ⊢
    simp only [hline, bind, Except.bind, pure, Except.pure]
  | some e =>
    simp only at hline ⊢
    simp only [hline, bind, Except.bind, pure, Except.pure]

/-- Reading digits never lowers the value read so far. -/
theorem digitsValue_ge (s : GoString) : ∀ (n v : Nat), digitsValue s n = some v → n ≤ v := by
  induction s with
  | nil =>
    intro n v h
    simp only [digitsValue, Option.some.injEq] at h
    omega
  | cons c rest ih =>
    intro n v h
    by_cases hc : 48 ≤ c.val ∧ c.val ≤ 57
    · simp only [digitsValue, if_pos hc] at h
      have := ih _ _ h
      omega
    · simp only [digitsValue, if_neg hc] at h
      exact absurd h (by simp)

/-- On a string of digits whose value fits `uint64`, the loop of `ParseUint`
returns the value and no error. -/
theorem parseUintLoop_of_digits (s : GoString) :
    ∀ (n v : Nat), digitsValue s n = some v → v < 2 ^ 64 → parseUintLoop s n = (v, none) := by
  induction s with
  | nil =>
    intro n v h _
    simp only [digitsValue, Option.some.injEq] at h
    simp only [parseUintLoop, h]
  | cons c rest ih =>
    intro n v h hv
    by_cases hc : 48 ≤ c.val ∧ c.val ≤ 57
    · simp only [digitsValue, if_pos hc] at h
      have hge := digitsValue_ge rest _ _ h
      have hn : ¬ (n ≥ maxUint64 / 10 + 1) := by
        simp only [maxUint64]
        omega
      have hmod : (n * 10 + (c.val - 48)) % 2 ^ 64 = n * 10 + (c.val - 48) :=
        Nat.mod_eq_of_lt (by omega)
      have hwrap : ¬ (n * 10 + (c.val - 48) < n * 10 ∨ n * 10 + (c.val - 48) > maxUint64) := by
        simp only [maxUint64]
        omega
      simp only [parseUintLoop, not_not, hc, not_true_eq_false, if_false, if_neg hn, hmod,
        if_neg hwrap]
      exact ih _ _ h hv
    · simp only [digitsValue, if_neg hc] at h
      exact absurd h (by simp)

/-- On a string with a byte that is not a digit, in which at most 19 digits
come first, the loop of `ParseUint` returns `0` and a syntax error. -/
theorem parseUintLoop_of_invalid (s : GoString) :
    ∀ n : Nat, digitsValue s n = none → (n + 1) * 10 ^ (s.length - 1) ≤ 10 ^ 19 →
      parseUintLoop s n = (0, some .errSyntax) := by
  induction s with
  | nil =>
    intro n h _
    simp [digitsValue] at h
  | cons c rest ih =>
    intro n h hb
    by_cases hc : 48 ≤ c.val ∧ c.val ≤ 57
    · simp only [digitsValue, if_pos hc] at h
      have hrest : rest ≠ [] := by
        rintro rfl
        simp [digitsValue] at h
      have hlen : rest.length = (rest.length - 1) + 1 := by
        have := List.length_pos.mpr hrest
        omega
      simp only [List.length_cons, Nat.add_sub_cancel] at hb
      rw [hlen, Nat.pow_succ] at hb
      have hP : 1 ≤ 10 ^ (rest.length - 1) := Nat.one_le_pow _ _ (by decide)
      have h1 : (n + 1) * 10 ≤ (n + 1) * 10 * 10 ^ (rest.length - 1) :=
        Nat.le_mul_of_pos_right _ hP
      have h2 : (n + 1) * (10 ^ (rest.length - 1) * 10) = (n + 1) * 10 * 10 ^ (rest.length - 1) := by
        ring
      rw [h2] at hb
      have hn10 : n * 10 + 10 ≤ 10 ^ 19 := by
        have h3 : (n + 1) * 10 = n * 10 + 10 := by ring
        omega
      have hn : ¬ (n ≥ maxUint64 / 10 + 1) := by
        simp only [maxUint64]
        omega
      have hmod : (n * 10 + (c.val - 48)) % 2 ^ 64 = n * 10 + (c.val - 48) :=
        Nat.mod_eq_of_lt (by omega)
      have hwrap : ¬ (n * 10 + (c.val - 48) < n * 10 ∨ n * 10 + (c.val - 48) > maxUint64) := by
        simp only [maxUint64]
        omega
      simp only [parseUintLoop, not_not, hc, not_true_eq_false, if_false, if_neg hn, hmod,
        if_neg hwrap]
      apply ih _ h
      have h4 : n * 10 + (c.val - 48) + 1 ≤ (n + 1) * 10 := by omega
      exact le_trans (Nat.mul_le_mul_right _ h4) hb
    · simp only [parseUintLoop, hc, not_false_eq_true, if_true]

/-- The loop of the fast path of `Atoi` computes the value of the digits. -/
theorem atoiLoop_eq (s : GoString) :
    ∀ n : Nat, atoiLoop s (n : Int) = Option.map (fun (v : Nat) => (v : Int)) (digitsValue s n) := by
  induction s with
  | nil =>
    intro n
    simp only [atoiLoop, digitsValue, Option.map_some']
  | cons c rest ih =>
    intro n
    by_cases hc : 48 ≤ c.val ∧ c.val ≤ 57
    · have hcast : (n : Int) * 10 + ((c.val - 48 : Nat) : Int)
          = ((n * 10 + (c.val - 48) : Nat) : Int) := by push_cast; ring
      simp only [atoiLoop, digitsValue, hc, not_true_eq_false, if_false, if_true, and_self, hcast]
      exact ih _
    · simp only [atoiLoop, digitsValue, hc, not_false_eq_true, if_true, if_false,
        Option.map_none']

/-- The value `Atoi` returns for a string that does not start with a sign. -/
theorem atoi_unsigned (s : GoString) (hne : s ≠ []) (h45 : s.head? ≠ some 45)
    (h43 : s.head? ≠ some 43) :
    (∀ v : Nat, digitsValue s 0 = some v → v < 2 ^ 63 → (atoi s).1 = (v : Int))
    ∧ (digitsValue s 0 = none → s.length ≤ 20 → (atoi s).1 = 0) := by
  have hpos : 0 < s.length := List.length_pos.mpr hne
  have hloop := atoiLoop_eq s 0
  simp only [Nat.cast_zero] at hloop
  by_cases hfast : s.length < 19
  · have hguard : 0 < s.length ∧ s.length < 19 := ⟨hpos, hfast⟩
    constructor
    · intro v hv _
      simp [atoi, hguard, h45, h43, hloop, hv]
    · intro hv _
      simp [atoi, hguard, h45, h43, hloop, hv]
  · have hguard : ¬ (0 < s.length ∧ s.length < 19) := by omega
    constructor
    · intro v hv hlt
      have hp := parseUintLoop_of_digits s 0 v hv (by omega)
      have hw : wrapInt64 (v : Int) = (v : Int) := by
        simp only [wrapInt64]
        omega
      have hr : ¬ (9223372036854775808 ≤ v) := by omega
      simp [atoi, hguard, parseInt, hne, h43, h45, parseUint, hp, hw, hr]
    · intro hv hlen
      have hb : (0 + 1) * 10 ^ (s.length - 1) ≤ 10 ^ 19 := by
        rw [Nat.zero_add, Nat.one_mul]
        exact Nat.pow_le_pow_right (by decide) (by omega)
      have hp := parseUintLoop_of_invalid s 0 hv hb
      simp [atoi, hguard, parseInt, hne, h43, h45, parseUint, hp]

/-- The value `Atoi` returns for a string that starts with `-`. -/
theorem atoi_minus (rest : GoString) :
    (rest = [] → (atoi (45 :: rest)).1 = 0)
    ∧ (∀ v : Nat, rest ≠ [] → digitsValue rest 0 = some v → v ≤ 2 ^ 63 →
        (atoi (45 :: rest)).1 = -(v : Int))
    ∧ (rest ≠ [] → digitsValue rest 0 = none → rest.length ≤ 19 → (atoi (45 :: rest)).1 = 0) := by
  have hloop := atoiLoop_eq rest 0
  simp only [Nat.cast_zero] at hloop
  have hd : ((45 : Byte) = 43) = False := by decide
  refine ⟨?_, ?_, ?_⟩
  · rintro rfl
    decide
  · intro v hne hv hle
    have hpos : 0 < rest.length := List.length_pos.mpr hne
    by_cases hfast : rest.length + 1 < 19
    · simp [atoi, hfast, hne, hloop, hv]
    · have hp := parseUintLoop_of_digits rest 0 v hv (by omega)
      have hw : wrapInt64 (-(wrapInt64 (v : Int))) = -(v : Int) := by
        simp only [wrapInt64]
        omega
      have hr : ¬ (9223372036854775808 < v) := by omega
      simp [atoi, hfast, parseInt, hne, hd, parseUint, hp, hw, hr]
  · intro hne hv hlen
    have hpos : 0 < rest.length := List.length_pos.mpr hne
    by_cases hfast : rest.length + 1 < 19
    · simp [atoi, hfast, hne, hloop, hv]
    · have hb : (0 + 1) * 10 ^ (rest.length - 1) ≤ 10 ^ 19 := by
        rw [Nat.zero_add, Nat.one_mul]
        exact Nat.pow_le_pow_right (by decide) (by omega)
      have hp := parseUintLoop_of_invalid rest 0 hv hb
      simp [atoi, hfast, parseInt, hne, hd, parseUint, hp]

/-- The value `Atoi` returns for a string that starts with `+`. -/
theorem atoi_plus (rest : GoString) :
    (rest = [] → (atoi (43 :: rest)).1 = 0)
    ∧ (∀ v : Nat, rest ≠ [] → digitsValue rest 0 = some v → v < 2 ^ 63 →
        (atoi (43 :: rest)).1 = (v : Int))
    ∧ (rest ≠ [] → digitsValue rest 0 = none → rest.length ≤ 19 → (atoi (43 :: rest)).1 = 0) := by
  have hloop := atoiLoop_eq rest 0
  simp only [Nat.cast_zero] at hloop
  have hd : ((43 : Byte) = 45) = False := by decide
  refine ⟨?_, ?_, ?_⟩
  · rintro rfl
    decide
  · intro v hne hv hle
    have hpos : 0 < rest.length := List.length_pos.mpr hne
    by_cases hfast : rest.length + 1 < 19
    · simp [atoi, hfast, hne, hloop, hv, hd]
    · have hp := parseUintLoop_of_digits rest 0 v hv (by omega)
      have hw : wrapInt64 (v : Int) = (v : Int) := by
        simp only [wrapInt64]
        omega
      have hr : ¬ (9223372036854775808 ≤ v) := by omega
      simp [atoi, hfast, parseInt, hne, hd, parseUint, hp, hw, hr]
  · intro hne hv hlen
    have hpos : 0 < rest.length := List.length_pos.mpr hne
    by_cases hfast : rest.length + 1 < 19
    · simp [atoi, hfast, hne, hloop, hv, hd]
    · have hb : (0 + 1) * 10 ^ (rest.length - 1) ≤ 10 ^ 19 := by
        rw [Nat.zero_add, Nat.one_mul]
        exact Nat.pow_le_pow_right (by decide) (by omega)
      have hp := parseUintLoop_of_invalid rest 0 hv hb
      simp [atoi, hfast, parseInt, hne, hd, parseUint, hp]

/-- A number below `10 ^ (k + 1)` has at most `k + 1` decimal digits. -/
theorem natDigitsAux_length_le (fuel : Nat) :
    ∀ (n : Nat) (acc : GoString) (k : Nat), n < fuel → n < 10 ^ (k + 1) →
      (natDigitsAux fuel n acc).length ≤ acc.length + k + 1 := by
  induction fuel with
  | zero =>
    intro n acc k hf
    omega
  | succ fuel ih =>
    intro n acc k hf hk
    by_cases h0 : n / 10 = 0
    · simp only [natDigitsAux, if_pos h0, List.length_cons]
      omega
    · simp only [natDigitsAux, if_neg h0]
      cases k with
      | zero =>
        simp only [Nat.zero_add, Nat.pow_one] at hk
        omega
      | succ k =>
        have hdiv : n / 10 < 10 ^ (k + 1) := by
          rw [Nat.pow_succ] at hk
          omega
        have := ih (n / 10) (digit n :: acc) k (by omega) hdiv
        simp only [List.length_cons] at this
        omega

/-- A number from `10 ^ k` up has at least `k + 1` decimal digits. -/
theorem natDigitsAux_length_ge (fuel : Nat) :
    ∀ (n : Nat) (acc : GoString) (k : Nat), n < fuel → 10 ^ k ≤ n →
      acc.length + k + 1 ≤ (natDigitsAux fuel n acc).length := by
  induction fuel with
  | zero =>
    intro n acc k hf
    omega
  | succ fuel ih =>
    intro n acc k hf hk
    by_cases h0 : n / 10 = 0
    · simp only [natDigitsAux, if_pos h0, List.length_cons]
      cases k with
      | zero => omega
      | succ k =>
        have h10 : 10 ≤ 10 ^ (k + 1) := by
          rw [Nat.pow_succ]
          have := Nat.one_le_pow k 10 (by decide)
          omega
        omega
    · simp only [natDigitsAux, if_neg h0]
      cases k with
      | zero =>
        have := ih (n / 10) (digit n :: acc) 0 (by omega) (by simp only [Nat.pow_zero]; omega)
        simp only [List.length_cons] at this
        omega
      | succ k =>
        have hdiv : 10 ^ k ≤ n / 10 := by
          rw [Nat.pow_succ] at hk
          omega
        have := ih (n / 10) (digit n :: acc) k (by omega) hdiv
        simp only [List.length_cons] at this
        omega

/-- The result of `roundHalfEven a b` is `a / b` or `a / b + 1`. -/
theorem roundHalfEven_bounds (a b : Nat) :
    a / b ≤ roundHalfEven a b ∧ roundHalfEven a b ≤ a / b + 1 := by
  simp only [roundHalfEven]
  split_ifs <;> omega

/-- The number `highBit fuel n` is at most `fuel`. -/
theorem highBit_le (fuel : Nat) : ∀ n : Nat, highBit fuel n ≤ fuel := by
  induction fuel with
  | zero =>
    intro n
    simp only [highBit, le_refl]
  | succ fuel ih =>
    intro n
    simp only [highBit]
    split_ifs
    · omega
    · have := ih (n / 2)
      omega

/-- The conversion to `float64` lowers a natural number by less than `4096`. -/
theorem float64OfNat_lower (n : Nat) : n ≤ float64OfNat n + 4096 := by
  by_cases h : n < 2 ^ 53
  · simp only [float64OfNat, if_pos h]
    omega
  · simp only [float64OfNat, if_neg h]
    have he : highBit 64 n - 52 ≤ 12 := by
      have := highBit_le 64 n
      omega
    have hE : 2 ^ (highBit 64 n - 52) ≤ 4096 := by
      calc 2 ^ (highBit 64 n - 52) ≤ 2 ^ 12 := Nat.pow_le_pow_right (by decide) he
        _ = 4096 := by norm_num
    have hEpos : 0 < 2 ^ (highBit 64 n - 52) := Nat.pow_pos (by decide)
    have hdm := Nat.div_add_mod n (2 ^ (highBit 64 n - 52))
    have hlt := Nat.mod_lt n hEpos
    have hcomm : 2 ^ (highBit 64 n - 52) * (n / 2 ^ (highBit 64 n - 52))
        = n / 2 ^ (highBit 64 n - 52) * 2 ^ (highBit 64 n - 52) := Nat.mul_comm _ _
    split_ifs
    · have hmono : n / 2 ^ (highBit 64 n - 52) * 2 ^ (highBit 64 n - 52)
          ≤ (n / 2 ^ (highBit 64 n - 52) + 1) * 2 ^ (highBit 64 n - 52) :=
        Nat.mul_le_mul_right _ (by omega)
      omega
    · omega

/-- The length of a rendering with two fractional digits. -/
theorem renderHundredths_length (h : Nat) :
    (renderHundredths h).length = (natDigits (h / 100)).length + 3 := by
  simp only [renderHundredths, List.length_append, List.length_cons, List.length_nil]

/-- What `formatBytes` prints for a natural number, unit by unit. -/
theorem formatBytes_nat (k : Nat) :
    formatBytes (k : Int)
      = if 2 ^ 30 ≤ k then
          renderHundredths (roundHalfEven (100 * float64OfNat k) (2 ^ 30)) ++ unitGb
        else if 2 ^ 20 ≤ k then
          renderHundredths (roundHalfEven (100 * float64OfNat k) (2 ^ 20)) ++ unitMb
        else if 2 ^ 10 ≤ k then
          renderHundredths (roundHalfEven (100 * float64OfNat k) (2 ^ 10)) ++ unitKb
        else renderHundredths (roundHalfEven (100 * float64OfNat k) (2 ^ 0)) ++ unitB := by
  have hneg : ¬ ((k : Int) < 0) := by omega
  have hnum : ¬ ((float64OfNat k : Int) < 0) := by omega
  have hconv : float64OfInt (k : Int) = ⟨(float64OfNat k : Int), 0⟩ := by
    simp only [float64OfInt, if_neg hneg, Int.natAbs_ofNat]
  by_cases h30 : 2 ^ 30 ≤ k
  · have h1 : (k : Int) ≥ 2 ^ 30 := by exact_mod_cast h30
    simp only [formatBytes, if_pos h1, if_pos h30, hconv, Dyadic.divPow2, Nat.zero_add,
      sprintf2f, if_neg hnum, Int.natAbs_ofNat]
  · have h1 : ¬ ((k : Int) ≥ 2 ^ 30) := by
      intro hh
      exact h30 (by exact_mod_cast hh)
    by_cases h20 : 2 ^ 20 ≤ k
    · have h2 : (k : Int) ≥ 2 ^ 20 := by exact_mod_cast h20
      simp only [formatBytes, if_neg h1, if_neg h30, if_pos h2, if_pos h20, hconv,
        Dyadic.divPow2, Nat.zero_add, sprintf2f, if_neg hnum, Int.natAbs_ofNat]
    · have h2 : ¬ ((k : Int) ≥ 2 ^ 20) := by
        intro hh
        exact h20 (by exact_mod_cast hh)
      by_cases h10 : 2 ^ 10 ≤ k
      · have h3 : (k : Int) ≥ 2 ^ 10 := by exact_mod_cast h10
        simp only [formatBytes, if_neg h1, if_neg h30, if_neg h2, if_neg h20, if_pos h3,
          if_pos h10, hconv, Dyadic.divPow2, Nat.zero_add, sprintf2f, if_neg hnum,
          Int.natAbs_ofNat]
      · have h3 : ¬ ((k : Int) ≥ 2 ^ 10) := by
          intro hh
          exact h10 (by exact_mod_cast hh)
        simp only [formatBytes, if_neg h1, if_neg h30, if_neg h2, if_neg h20, if_neg h3,
          if_neg h10, hconv, sprintf2f, if_neg hnum, Int.natAbs_ofNat]

/-! ## The String Fitter -/

/-- C1: when `len(s) > m > 0`, `fitString(s, d, padLeft, m)` returns
`s[0 : floor(m/2)] + "..." + s[len(s) - ceil(m/2) :]`, a string of exactly `m + 3`
bytes, whatever `d` and `padLeft` are. -/
theorem fitString_truncates (s : GoString) (d : Int) (padLeft : Bool) (m : Int)
    (hm : 0 < m) (hlen : m < (s.length : Int)) :
    ∃ t : GoString, fitString s d padLeft m = .ok t
      ∧ t = s.take ⌊(m : ℚ) / 2⌋.toNat ++ ellipsis ++ s.drop (s.length - ⌈(m : ℚ) / 2⌉.toNat)
      ∧ (t.length : Int) = m + 3 := by
  refine ⟨_, fitString_truncate_eq s d padLeft m hm hlen, ?_, ?_⟩
  · rw [floor_half, ceil_half]
  · simp only [List.length_append, List.length_take, List.length_drop, ellipsis,
      List.length_cons, List.length_nil]
    omega

theorem fitString_truncates_witness :
    ((0 : Int) < 3 ∧ (3 : Int) < (([97, 98, 99, 100, 101, 102] : GoString).length : Int))
      ∧ ∃ t : GoString, fitString [97, 98, 99, 100, 101, 102] 9 true 3 = .ok t
        ∧ t = List.take ⌊((3 : Int) : ℚ) / 2⌋.toNat [97, 98, 99, 100, 101, 102] ++ ellipsis
              ++ List.drop (6 - ⌈((3 : Int) : ℚ) / 2⌉.toNat) [97, 98, 99, 100, 101, 102]
        ∧ (t.length : Int) = 3 + 3 :=
  ⟨by decide, fitString_truncates [97, 98, 99, 100, 101, 102] 9 true 3 (by decide) (by decide)⟩

/-- C2: when `len(s) < d`, `fitString(s, d, false, 0)` is `s` followed by
`d - len(s)` spaces, a string of exactly `d` bytes. -/
theorem fitString_pads_right (s : GoString) (d : Int) (h : (s.length : Int) < d) :
    ∃ t : GoString, fitString s d false 0 = .ok t
      ∧ t = s ++ List.replicate (d - (s.length : Int)).toNat space
      ∧ (t.length : Int) = d := by
  refine ⟨_, ?_, rfl, ?_⟩
  · rw [fitString_no_truncate s d false 0 (Or.inl le_rfl), if_pos h]
    rfl
  · simp only [List.length_append, List.length_replicate]
    omega

theorem fitString_pads_right_witness :
    ((([97, 98] : GoString).length : Int) < 5)
      ∧ ∃ t : GoString, fitString [97, 98] 5 false 0 = .ok t
        ∧ t = [97, 98] ++ List.replicate ((5 : Int) - ((2 : Nat) : Int)).toNat space
        ∧ (t.length : Int) = 5 :=
  ⟨by decide, fitString_pads_right [97, 98] 5 (by decide)⟩

/-- C3: when `len(s) < d`, `fitString(s, d, true, 0)` is `d - len(s)` spaces
followed by `s`, a string of exactly `d` bytes. -/
theorem fitString_pads_left (s : GoString) (d : Int) (h : (s.length : Int) < d) :
    ∃ t : GoString, fitString s d true 0 = .ok t
      ∧ t = List.replicate (d - (s.length : Int)).toNat space ++ s
      ∧ (t.length : Int) = d := by
  refine ⟨_, ?_, rfl, ?_⟩
  · rw [fitString_no_truncate s d true 0 (Or.inl le_rfl), if_pos h]
    rfl
  · simp only [List.length_append, List.length_replicate]
    omega

theorem fitString_pads_left_witness :
    ((([97, 98] : GoString).length : Int) < 5)
      ∧ ∃ t : GoString, fitString [97, 98] 5 true 0 = .ok t
        ∧ t = List.replicate ((5 : Int) - ((2 : Nat) : Int)).toNat space ++ [97, 98]
        ∧ (t.length : Int) = 5 :=
  ⟨by decide, fitString_pads_left [97, 98] 5 (by decide)⟩

/-- C4: when `len(s) >= d`, `fitString(s, d, padLeft, 0)` returns `s` unchanged,
for either `padLeft` and however long `s` is. -/
theorem fitString_unchanged (s : GoString) (d : Int) (padLeft : Bool)
    (h : d ≤ (s.length : Int)) :
    fitString s d padLeft 0 = .ok s := by
  rw [fitString_no_truncate s d padLeft 0 (Or.inl le_rfl), if_neg (by omega)]

theorem fitString_unchanged_witness :
    ((3 : Int) ≤ (([97, 98, 99, 100] : GoString).length : Int))
      ∧ fitString [97, 98, 99, 100] 3 true 0 = .ok [97, 98, 99, 100] :=
  ⟨by decide, fitString_unchanged [97, 98, 99, 100] 3 true (by decide)⟩

/-! ## The Status Colorizer -/

/-- C5: for every integer status code, `colorizeStatus` returns the decimal
code between one palette colour and `reset`: green on `[200,300)`, cyan on
`[300,400)`, red on `[400,500)`, magenta from `500` up and yellow for every other
integer (all of them below `200`, the negative ones included); the five colours
are pairwise distinct, and the boundary values are coloured as listed. -/
theorem colorizeStatus_palette (c : Int) :
    (200 ≤ c ∧ c < 300 → colorizeStatus c = .ok (green ++ itoa c ++ reset))
    ∧ (300 ≤ c ∧ c < 400 → colorizeStatus c = .ok (cyan ++ itoa c ++ reset))
    ∧ (400 ≤ c ∧ c < 500 → colorizeStatus c = .ok (red ++ itoa c ++ reset))
    ∧ (500 ≤ c → colorizeStatus c = .ok (magenta ++ itoa c ++ reset))
    ∧ (c < 200 → colorizeStatus c = .ok (yellow ++ itoa c ++ reset))
    ∧ [green, cyan, red, magenta, yellow].Nodup
    ∧ colorizeStatus 199 = .ok (yellow ++ [49, 57, 57] ++ reset)
    ∧ colorizeStatus 200 = .ok (green ++ [50, 48, 48] ++ reset)
    ∧ colorizeStatus 299 = .ok (green ++ [50, 57, 57] ++ reset)
    ∧ colorizeStatus 300 = .ok (cyan ++ [51, 48, 48] ++ reset)
    ∧ colorizeStatus 404 = .ok (red ++ [52, 48, 52] ++ reset)
    ∧ colorizeStatus 500 = .ok (magenta ++ [53, 48, 48] ++ reset)
    ∧ colorizeStatus (-1) = .ok (yellow ++ [45, 49] ++ reset) := by
  refine ⟨?_, ?_, ?_, ?_, ?_, by decide, by decide, by decide, by decide, by decide, by decide,
    by decide, by decide⟩
  · intro h
    have h1 : c ≥ 200 ∧ c < 300 := by omega
    simp only [colorizeStatus, if_pos h1]
    exact colorize_of_hasPrefix _ _ (by decide)
  · intro h
    have h1 : ¬ (c ≥ 200 ∧ c < 300) := by omega
    have h2 : c ≥ 300 ∧ c < 400 := by omega
    simp only [colorizeStatus, if_neg h1, if_pos h2]
    exact colorize_of_hasPrefix _ _ (by decide)
  · intro h
    have h1 : ¬ (c ≥ 200 ∧ c < 300) := by omega
    have h2 : ¬ (c ≥ 300 ∧ c < 400) := by omega
    have h3 : c ≥ 400 ∧ c < 500 := by omega
    simp only [colorizeStatus, if_neg h1, if_neg h2, if_pos h3]
    exact colorize_of_hasPrefix _ _ (by decide)
  · intro h
    have h1 : ¬ (c ≥ 200 ∧ c < 300) := by omega
    have h2 : ¬ (c ≥ 300 ∧ c < 400) := by omega
    have h3 : ¬ (c ≥ 400 ∧ c < 500) := by omega
    have h4 : c ≥ 500 := h
    simp only [colorizeStatus, if_neg h1, if_neg h2, if_neg h3, if_pos h4]
    exact colorize_of_hasPrefix _ _ (by decide)
  · intro h
    have h1 : ¬ (c ≥ 200 ∧ c < 300) := by omega
    have h2 : ¬ (c ≥ 300 ∧ c < 400) := by omega
    have h3 : ¬ (c ≥ 400 ∧ c < 500) := by omega
    have h4 : ¬ (c ≥ 500) := by omega
    simp only [colorizeStatus, if_neg h1, if_neg h2, if_neg h3, if_neg h4]
    exact colorize_of_hasPrefix _ _ (by decide)

theorem colorizeStatus_palette_witness :
    ((200 : Int) ≤ 204 ∧ (204 : Int) < 300)
      ∧ colorizeStatus 204 = .ok (green ++ itoa 204 ++ reset) :=
  ⟨by decide, (colorizeStatus_palette 204).1 (by decide)⟩

/-! ## The Path Formatter -/

/-- C7: `formatPath` always returns exactly 40 bytes: `"/"` and 39 spaces for the
empty path, the path and spaces up to 40 for a non-empty path of at most 37
bytes, and `fitString(path, 40, false, 37)`, the ellipsis form, for a longer
path. -/
theorem formatPath_length (path : GoString) :
    ∃ t : GoString, formatPath path = .ok t
      ∧ t.length = 40
      ∧ (path = [] → t = slash :: List.replicate 39 space)
      ∧ (path ≠ [] → path.length ≤ 37 → t = path ++ List.replicate (40 - path.length) space)
      ∧ (37 < path.length → fitString path 40 false 37 = .ok t
          ∧ t = path.take 18 ++ ellipsis ++ path.drop (path.length - 19)) := by
  by_cases he : path = []
  · subst he
    exact ⟨slash :: List.replicate 39 space, by decide, by decide, fun _ => rfl,
      fun h => absurd rfl h, fun h => absurd h (by decide)⟩
  · have hpos : 0 < path.length := List.length_pos.mpr he
    have hfp : formatPath path = fitString path 40 false 37 := by
      simp only [formatPath, if_neg he]
    by_cases hlong : 37 < path.length
    · have htr := fitString_truncate_eq path 40 false 37 (by decide) (by omega)
      have h18 : ((37 : Int) / 2).toNat = 18 := by decide
      have h19 : (((37 : Int) + 1) / 2).toNat = 19 := by decide
      rw [h18, h19] at htr
      refine ⟨_, hfp.trans htr, ?_, fun h => absurd h he, fun _ h => by omega,
        fun _ => ⟨htr, rfl⟩⟩
      simp only [List.length_append, List.length_take, List.length_drop, ellipsis,
        List.length_cons, List.length_nil]
      omega
    · have hpad := fitString_no_truncate path 40 false 37 (Or.inr (by omega))
      rw [if_pos (by omega)] at hpad
      have hn : ((40 : Int) - (path.length : Int)).toNat = 40 - path.length := by omega
      simp only [hn, Bool.false_eq_true, if_false] at hpad
      refine ⟨_, hfp.trans hpad, ?_, fun h => absurd h he, fun _ _ => rfl,
        fun h => absurd h hlong⟩
      simp only [List.length_append, List.length_replicate]
      omega

theorem formatPath_length_witness :
    ∃ t : GoString, formatPath [47, 97, 112, 105] = .ok t
      ∧ t.length = 40
      ∧ (([47, 97, 112, 105] : GoString) = [] → t = slash :: List.replicate 39 space)
      ∧ (([47, 97, 112, 105] : GoString) ≠ [] → ([47, 97, 112, 105] : GoString).length ≤ 37 →
          t = [47, 97, 112, 105]
            ++ List.replicate (40 - ([47, 97, 112, 105] : GoString).length) space)
      ∧ (37 < ([47, 97, 112, 105] : GoString).length →
          fitString [47, 97, 112, 105] 40 false 37 = .ok t
          ∧ t = List.take 18 ([47, 97, 112, 105] : GoString) ++ ellipsis
              ++ List.drop (([47, 97, 112, 105] : GoString).length - 19) [47, 97, 112, 105]) :=
  formatPath_length [47, 97, 112, 105]

/-- C8 as stated fails: for the path of 100 bytes `a`, `formatPath` does not
return 19 leading `a`, the ellipsis and 18 trailing `a`. -/
theorem formatPath_hundred_a_not_19_18 :
    formatPath (List.replicate 100 97)
      ≠ .ok (List.replicate 19 97 ++ ellipsis ++ List.replicate 18 97) := by
  decide

/-- C8, amended: for the path of 100 bytes `a`, `formatPath` returns 40 bytes:
18 leading `a`, then `"..."`, then 19 trailing `a` (18 + 3 + 19 = 40), and
`"..."` occurs at exactly one position of the result. -/
theorem formatPath_hundred_a :
    formatPath (List.replicate 100 97)
        = .ok (List.replicate 18 97 ++ ellipsis ++ List.replicate 19 97)
      ∧ (List.replicate 18 (97 : Byte) ++ ellipsis ++ List.replicate 19 97).length = 40
      ∧ ((List.replicate 18 (97 : Byte) ++ ellipsis ++ List.replicate 19 97).tails.filter
          (fun u => hasPrefix u ellipsis)).length = 1
      ∧ fitString (List.replicate 100 97) 40 false 37
        = .ok (List.replicate 18 97 ++ ellipsis ++ List.replicate 19 97) := by
  decide

/-! ## Idempotence of the String Fitter -/

/-- C9: `fitString` always returns some `t`, and whenever the truncation branch
is not triggered for `t` (`m <= 0` or `len(t) <= m`), fitting `t` again with the
same arguments returns `t`; with `m = 0` fitting twice is the same as fitting
once. -/
theorem fitString_idempotent (s : GoString) (d : Int) (padLeft : Bool) (m : Int) :
    (∃ t : GoString, fitString s d padLeft m = .ok t
        ∧ (m ≤ 0 ∨ (t.length : Int) ≤ m → fitString t d padLeft m = .ok t))
    ∧ (∃ t : GoString, fitString s d padLeft 0 = .ok t ∧ fitString t d padLeft 0 = .ok t) := by
  have key : ∀ (m : Int) (t : GoString), (m ≤ 0 ∨ (s.length : Int) ≤ m) →
      fitString s d padLeft m = .ok t → (m ≤ 0 ∨ (t.length : Int) ≤ m) →
      fitString t d padLeft m = .ok t := by
    intro m t hs ht hm
    have hlen := fitString_no_truncate_length s t d padLeft m hs ht
    rw [fitString_no_truncate t d padLeft m hm, if_neg (by omega)]
  have total : ∀ m : Int, (m ≤ 0 ∨ (s.length : Int) ≤ m) →
      ∃ t : GoString, fitString s d padLeft m = .ok t := by
    intro m hs
    rw [fitString_no_truncate s d padLeft m hs]
    by_cases hd : (s.length : Int) < d
    · exact ⟨_, if_pos hd⟩
    · exact ⟨_, if_neg hd⟩
  constructor
  · by_cases hg : 0 < m ∧ m < (s.length : Int)
    · refine ⟨_, fitString_truncate_eq s d padLeft m hg.1 hg.2, ?_⟩
      intro hm
      exfalso
      simp only [List.length_append, List.length_take, List.length_drop, ellipsis,
        List.length_cons, List.length_nil] at hm
      omega
    · have hs : m ≤ 0 ∨ (s.length : Int) ≤ m := by omega
      obtain ⟨t, ht⟩ := total m hs
      exact ⟨t, ht, key m t hs ht⟩
  · obtain ⟨t, ht⟩ := total 0 (Or.inl le_rfl)
    exact ⟨t, ht, key 0 t (Or.inl le_rfl) ht (Or.inl le_rfl)⟩

theorem fitString_idempotent_witness :
    ((7 : Int) ≤ 0 ∨ ((([32, 32, 32, 97, 98] : GoString).length : Int) ≤ 7))
      ∧ fitString [97, 98] 5 true 7 = .ok [32, 32, 32, 97, 98]
      ∧ fitString [32, 32, 32, 97, 98] 5 true 7 = .ok [32, 32, 32, 97, 98] := by
  obtain ⟨t, ht, himp⟩ := (fitString_idempotent [97, 98] 5 true 7).1
  have hfirst : fitString [97, 98] 5 true 7 = .ok [32, 32, 32, 97, 98] := by decide
  have ht2 : t = [32, 32, 32, 97, 98] := by
    rw [hfirst] at ht
    injection ht with ht
    exact ht.symm
  subst ht2
  exact ⟨by decide, hfirst, himp (by decide)⟩

/-! ## The Color Annotator -/

/-- C10 as stated fails: `reset` belongs to the palette, and `colorize` with
`reset` as colour panics instead of returning `reset + text + reset`. -/
theorem colorize_reset_panics :
    reset ∈ [reset, red, green, yellow, blue, magenta, cyan]
      ∧ colorize [] reset = .error .invalidColor
      ∧ colorize [97] reset = .error .invalidColor
      ∧ colorize [97] reset ≠ .ok (reset ++ [97] ++ reset) := by
  decide

/-- C10, amended: for every text and each of the six colours red, green, yellow,
blue, magenta and cyan, `colorize(text, color)` returns normally, with
`color + text + reset`. -/
theorem colorize_palette (text color : GoString)
    (h : color ∈ [red, green, yellow, blue, magenta, cyan]) :
    colorize text color = .ok (color ++ text ++ reset) := by
  apply colorize_of_hasPrefix
  simp only [List.mem_cons, List.mem_singleton, List.mem_nil_iff, or_false] at h
  rcases h with h | h | h | h | h | h <;> subst h <;> decide

theorem colorize_palette_witness :
    blue ∈ [red, green, yellow, blue, magenta, cyan]
      ∧ colorize [71, 69, 84] blue = .ok (blue ++ [71, 69, 84] ++ reset) :=
  ⟨by decide, colorize_palette [71, 69, 84] blue (by decide)⟩

/-! ## The Byte Size Formatter -/

/-- C6 as stated fails: for `n = 2^53 + 16106127` the conversion to `float64`
rounds `n` up to `n + 1`, and `formatBytes(n)` is `"8388608.02Gb"`, although
`n / 2^30 = 8388608.01499999966...`: no `h / 100` within `1 / 200` of `n / 2^30`
is what `formatBytes` prints. -/
theorem formatBytes_inexact_above_2_53 :
    formatBytes 9007199270847119 = [56, 51, 56, 56, 54, 48, 56, 46, 48, 50, 71, 98]
      ∧ ¬ ∃ h : Nat, formatBytes 9007199270847119 = renderHundredths h ++ unitGb
          ∧ |((9007199270847119 : Int) : ℚ) / 2 ^ 30 - (h : ℚ) / 100| ≤ 1 / 200 := by
  refine ⟨by decide, ?_⟩
  rintro ⟨h, heq, hnear⟩
  rw [abs_le] at hnear
  obtain ⟨hlo, hhi⟩ := hnear
  have h1 : (838860800 : ℚ) < (h : ℚ) := by
    norm_num at hhi
    linarith
  have h2 : (h : ℚ) < (838860802 : ℚ) := by
    norm_num at hlo
    linarith
  have h3 : 838860800 < h := by exact_mod_cast h1
  have h4 : h < 838860802 := by exact_mod_cast h2
  have h5 : h = 838860801 := by omega
  subst h5
  revert heq
  decide

/-- C6, amended: for every byte count `n` with `0 <= n < 2^53`, `formatBytes(n)`
is some `h / 100`, rendered in decimal with exactly two fractional digits, that
lies within `1 / 200` of `v`, immediately followed by `u`, where `(v, u)` is
`(n / 2^30, "Gb")` if `n >= 2^30`, else `(n / 2^20, "Mb")` if `n >= 2^20`, else
`(n / 2^10, "Kb")` if `n >= 2^10`, else `(n, "b")`, in which case the fractional
digits are `00`.  The four listed values are printed as listed. -/
theorem formatBytes_two_decimals (n : Int) (h0 : 0 ≤ n) (h53 : n < 2 ^ 53) :
    (2 ^ 30 ≤ n → ∃ h : Nat, formatBytes n = renderHundredths h ++ unitGb
        ∧ |(n : ℚ) / 2 ^ 30 - (h : ℚ) / 100| ≤ 1 / 200)
    ∧ (2 ^ 20 ≤ n ∧ n < 2 ^ 30 → ∃ h : Nat, formatBytes n = renderHundredths h ++ unitMb
        ∧ |(n : ℚ) / 2 ^ 20 - (h : ℚ) / 100| ≤ 1 / 200)
    ∧ (2 ^ 10 ≤ n ∧ n < 2 ^ 20 → ∃ h : Nat, formatBytes n = renderHundredths h ++ unitKb
        ∧ |(n : ℚ) / 2 ^ 10 - (h : ℚ) / 100| ≤ 1 / 200)
    ∧ (n < 2 ^ 10 → formatBytes n = natDigits n.toNat ++ [dot, zero, zero] ++ unitB)
    ∧ formatBytes 500 = [53, 48, 48, 46, 48, 48, 98]
    ∧ formatBytes 2048 = [50, 46, 48, 48, 75, 98]
    ∧ formatBytes 1048576 = [49, 46, 48, 48, 77, 98]
    ∧ formatBytes 1073741824 = [49, 46, 48, 48, 71, 98] := by
  obtain ⟨k, rfl⟩ := Int.eq_ofNat_of_zero_le h0
  have hk : k < 2 ^ 53 := by exact_mod_cast h53
  have hconv := float64OfInt_exact k hk
  refine ⟨?_, ?_, ?_, ?_, by decide, by decide, by decide, by decide⟩
  · intro hge
    have h1 : (k : Int) ≥ 2 ^ 30 := hge
    obtain ⟨h, hp, hb⟩ := sprintf2f_near k 30
    refine ⟨h, ?_, by rw [Int.cast_natCast]; exact hb⟩
    simp only [formatBytes, if_pos h1, hconv, Dyadic.divPow2, Nat.zero_add, hp]
  · intro hge
    have h1 : ¬ ((k : Int) ≥ 2 ^ 30) := by omega
    have h2 : (k : Int) ≥ 2 ^ 20 := hge.1
    obtain ⟨h, hp, hb⟩ := sprintf2f_near k 20
    refine ⟨h, ?_, by rw [Int.cast_natCast]; exact hb⟩
    simp only [formatBytes, if_neg h1, if_pos h2, hconv, Dyadic.divPow2, Nat.zero_add, hp]
  · intro hge
    have h1 : ¬ ((k : Int) ≥ 2 ^ 30) := by omega
    have h2 : ¬ ((k : Int) ≥ 2 ^ 20) := by omega
    have h3 : (k : Int) ≥ 2 ^ 10 := hge.1
    obtain ⟨h, hp, hb⟩ := sprintf2f_near k 10
    refine ⟨h, ?_, by rw [Int.cast_natCast]; exact hb⟩
    simp only [formatBytes, if_neg h1, if_neg h2, if_pos h3, hconv, Dyadic.divPow2, Nat.zero_add,
      hp]
  · intro hlt
    have h1 : ¬ ((k : Int) ≥ 2 ^ 30) := by omega
    have h2 : ¬ ((k : Int) ≥ 2 ^ 20) := by omega
    have h3 : ¬ ((k : Int) ≥ 2 ^ 10) := by omega
    have hneg : ¬ ((k : Int) < 0) := by omega
    simp only [formatBytes, if_neg h1, if_neg h2, if_neg h3, hconv, sprintf2f, if_neg hneg,
      Int.natAbs_ofNat, roundHalfEven_one, renderHundredths_whole, Int.toNat_ofNat]

theorem formatBytes_two_decimals_witness :
    ((0 : Int) ≤ 1536 ∧ (1536 : Int) < 2 ^ 53 ∧ ((2 : Int) ^ 10 ≤ 1536 ∧ (1536 : Int) < 2 ^ 20))
      ∧ ∃ h : Nat, formatBytes 1536 = renderHundredths h ++ unitKb
          ∧ |((1536 : Int) : ℚ) / 2 ^ 10 - (h : ℚ) / 100| ≤ 1 / 200 :=
  ⟨by decide, (formatBytes_two_decimals 1536 (by decide) (by decide)).2.2.1 (by decide)⟩


/-! ## The Log Line Composer -/

/-- C11: for every wrapped handler that returns and every context, the handler
returned by `Logger` returns `nil`; when the wrapped handler returned an error
`e`, that error went to `c.Error` and the message was logged in the state
`c.Error` left, and `e` is not returned. -/
theorem Logger_returns_nil {ε : Type} (onError : ε → Context → Context) (now : GoString)
    (milliseconds : Int) (next : HandlerFunc ε) (c : Context) :
    ∃ c2 : Context, Logger onError now milliseconds next c = .ok (none, c2)
      ∧ ∀ e : ε, (next c).1 = some e →
          ∃ line : GoString,
            logMessage now milliseconds (onError e (next c).2).req (onError e (next c).2).res
              = .ok line
            ∧ c2 = { onError e (next c).2 with sink := (onError e (next c).2).sink ++ [line] } := by
  obtain ⟨line, hline, hlog⟩ := Logger_eq onError now milliseconds next c
  refine ⟨_, hlog, ?_⟩
  intro e he
  have hh : handled onError next c = onError e (next c).2 := by
    simp only [handled, he]
  rw [hh] at hline
  exact ⟨line, hline, by rw [hh]⟩

theorem Logger_returns_nil_witness :
    ∃ c2 : Context,
      Logger (fun (_ : Unit) (c : Context) => { c with res := ⟨500, 0⟩ }) [] 3
          (fun c => (some (), c)) ⟨⟨[71, 69, 84], [47], []⟩, ⟨200, 0⟩, []⟩ = .ok (none, c2)
      ∧ c2.res = ⟨500, 0⟩ ∧ c2.sink.length = 1 := by
  obtain ⟨c2, hc2, himp⟩ := Logger_returns_nil (fun (_ : Unit) (c : Context) =>
    { c with res := ⟨500, 0⟩ }) [] 3 (fun c => (some (), c))
    ⟨⟨[71, 69, 84], [47], []⟩, ⟨200, 0⟩, []⟩
  obtain ⟨line, -, hline⟩ := himp () rfl
  refine ⟨c2, hc2, ?_, ?_⟩
  · rw [hline]
  · rw [hline]
    rfl

set_option maxRecDepth 100000 in
/-- C12, the code at `GET /`, status 200, 0 ms, no `Content-Length`, 0 bytes out,
at `12:34:56`: every field of the message is as the claim lists it (method
`"GET    "` in yellow, path `"/"` and 39 spaces, `200` in green, `"    0ms"` in
blue, both byte fields `"    0.00b"`), and between method and path stand the
bytes `c3 a2 e2 80 a0 e2 80 99` of the format string, not the arrow `e2 86 92`:
the message is not the line the claim gives. -/
theorem logMessage_get_root :
    logMessage [49, 50, 58, 51, 52, 58, 53, 54] 0 ⟨[71, 69, 84], [47], []⟩ ⟨200, 0⟩
      = .ok ([49, 50, 58, 51, 52, 58, 53, 54] ++ [32]
          ++ (yellow ++ [71, 69, 84, 32, 32, 32, 32] ++ reset)
          ++ [32, 195, 162, 226, 128, 160, 226, 128, 153, 32]
          ++ (slash :: List.replicate 39 space)
          ++ [32, 40] ++ (green ++ [50, 48, 48] ++ reset) ++ [41, 32]
          ++ (blue ++ [32, 32, 32, 32, 48, 109, 115] ++ reset)
          ++ [32, 91, 32, 73, 110, 58, 32]
          ++ (magenta ++ [32, 32, 32, 32, 48, 46, 48, 48, 98] ++ reset)
          ++ [32, 124, 32, 79, 117, 116, 58, 32]
          ++ (cyan ++ [32, 32, 32, 32, 48, 46, 48, 48, 98] ++ reset)
          ++ [32, 93])
    ∧ logMessage [49, 50, 58, 51, 52, 58, 53, 54] 0 ⟨[71, 69, 84], [47], []⟩ ⟨200, 0⟩
      ≠ .ok ([49, 50, 58, 51, 52, 58, 53, 54] ++ [32]
          ++ (yellow ++ [71, 69, 84, 32, 32, 32, 32] ++ reset)
          ++ arrowUtf8
          ++ (slash :: List.replicate 39 space)
          ++ [32, 40] ++ (green ++ [50, 48, 48] ++ reset) ++ [41, 32]
          ++ (blue ++ [32, 32, 32, 32, 48, 109, 115] ++ reset)
          ++ [32, 91, 32, 73, 110, 58, 32]
          ++ (magenta ++ [32, 32, 32, 32, 48, 46, 48, 48, 98] ++ reset)
          ++ [32, 124, 32, 79, 117, 116, 58, 32]
          ++ (cyan ++ [32, 32, 32, 32, 48, 46, 48, 48, 98] ++ reset)
          ++ [32, 93])
    ∧ Logger (fun (_ : Unit) (c : Context) => c) [49, 50, 58, 51, 52, 58, 53, 54] 0
        (fun c => (none, c)) ⟨⟨[71, 69, 84], [47], []⟩, ⟨200, 0⟩, []⟩
      = (logMessage [49, 50, 58, 51, 52, 58, 53, 54] 0 ⟨[71, 69, 84], [47], []⟩ ⟨200, 0⟩).map
          (fun line => (none, ⟨⟨[71, 69, 84], [47], []⟩, ⟨200, 0⟩, [line]⟩)) := by
  decide

/-- C14 as stated fails where the string is shorter than the desired length and
longer than a positive `maxAllowedLength`: `fitString("abcdef", 10, false, 3)` is
`"a...ef"`, 6 bytes and not `"abcdef"` with four spaces; and for a path of 38
bytes `a`, `fitString(path, 40, false, 37)` is the ellipsis form and not the path
with two spaces.  The truncation rule is applied first. -/
theorem fitString_truncates_instead_of_padding :
    ((([97, 98, 99, 100, 101, 102] : GoString).length : Int) < 10)
    ∧ fitString [97, 98, 99, 100, 101, 102] 10 false 3 = .ok [97, 46, 46, 46, 101, 102]
    ∧ fitString [97, 98, 99, 100, 101, 102] 10 false 3
      ≠ .ok ([97, 98, 99, 100, 101, 102] ++ List.replicate 4 space)
    ∧ (((List.replicate 38 97 : GoString).length : Int) < 40)
    ∧ fitString (List.replicate 38 97) 40 false 37
      = .ok (List.replicate 18 97 ++ ellipsis ++ List.replicate 19 97)
    ∧ fitString (List.replicate 38 97) 40 false 37
      ≠ .ok (List.replicate 38 97 ++ List.replicate 2 space) := by
  decide

/-- C14, amended: for every string `s` with `len(s) < d`, when the truncation
rule does not apply (`m <= 0` or `len(s) <= m`), `fitString(s, d, padLeft, m)` is
`s` padded with spaces on the specified side (left if `padLeft`, otherwise right)
to exactly `d` bytes; when it applies (`0 < m < len(s)`), the result is the
ellipsis form of `m + 3` bytes and nothing is padded. -/
theorem fitString_pads_unless_truncated (s : GoString) (d : Int) (padLeft : Bool) (m : Int)
    (hd : (s.length : Int) < d) :
    (m ≤ 0 ∨ (s.length : Int) ≤ m →
      ∃ t : GoString, fitString s d padLeft m = .ok t
        ∧ t = (if padLeft then List.replicate (d - (s.length : Int)).toNat space ++ s
            else s ++ List.replicate (d - (s.length : Int)).toNat space)
        ∧ (t.length : Int) = d)
    ∧ (0 < m ∧ m < (s.length : Int) →
      ∃ t : GoString, fitString s d padLeft m = .ok t
        ∧ t = s.take (m / 2).toNat ++ ellipsis ++ s.drop (s.length - ((m + 1) / 2).toNat)
        ∧ (t.length : Int) = m + 3) := by
  constructor
  · intro hm
    refine ⟨_, ?_, rfl, ?_⟩
    · rw [fitString_no_truncate s d padLeft m hm, if_pos hd]
    · cases padLeft
      · simp only [Bool.false_eq_true, if_false, List.length_append, List.length_replicate]
        omega
      · simp only [if_true, List.length_append, List.length_replicate]
        omega
  · rintro ⟨hm, hlen⟩
    refine ⟨_, fitString_truncate_eq s d padLeft m hm hlen, rfl, ?_⟩
    simp only [List.length_append, List.length_take, List.length_drop, ellipsis,
      List.length_cons, List.length_nil]
    omega

theorem fitString_pads_unless_truncated_witness :
    (((([71, 69, 84] : GoString).length : Int) < 7)
        ∧ ((5 : Int) ≤ 0 ∨ ((([71, 69, 84] : GoString).length : Int) ≤ 5)))
      ∧ ∃ t : GoString, fitString [71, 69, 84] 7 false 5 = .ok t
        ∧ t = (if false = true then
              List.replicate ((7 : Int) - (([71, 69, 84] : GoString).length : Int)).toNat space
                ++ [71, 69, 84]
            else [71, 69, 84]
              ++ List.replicate ((7 : Int) - (([71, 69, 84] : GoString).length : Int)).toNat space)
        ∧ (t.length : Int) = 7 :=
  ⟨by decide, (fitString_pads_unless_truncated [71, 69, 84] 7 false 5 (by decide)).1 (by decide)⟩

/-- C15: one invocation of the handler returned by `Logger` applies the wrapped
handler once to the incoming state and appends one line to the sink as it stands
after the handler (and `c.Error`, on an error) has finished; nothing else of the
state changes and the line is the message built from that state.  With a handler
that puts a mark in the sink, the sink ends with the mark and then the line. -/
theorem Logger_one_line {ε : Type} (onError : ε → Context → Context) (now : GoString)
    (milliseconds : Int) (next : HandlerFunc ε) (c : Context) :
    (∃ line : GoString,
      logMessage now milliseconds (handled onError next c).req (handled onError next c).res
        = .ok line
      ∧ Logger onError now milliseconds next c
        = .ok (none, ⟨(handled onError next c).req, (handled onError next c).res,
            (handled onError next c).sink ++ [line]⟩))
    ∧ (∀ (mark : GoString) (r : Option ε), ∃ line : GoString,
        Logger (fun _ c => c) now milliseconds
            (fun c => (r, { c with sink := c.sink ++ [mark] })) c
          = .ok (none, { c with sink := c.sink ++ [mark] ++ [line] })) := by
  constructor
  · exact Logger_eq onError now milliseconds next c
  · intro mark r
    obtain ⟨line, -, hlog⟩ := Logger_eq (fun (_ : ε) (c : Context) => c) now milliseconds
      (fun c => (r, { c with sink := c.sink ++ [mark] })) c
    refine ⟨line, ?_⟩
    rw [hlog]
    cases r <;> rfl

/-- C16: `colorize(s, color)` panics if and only if `color` does not start with
`"\033[0;3"`, and returns `color + s + "\033[0m"` when it does; a string with the
prefix that is not a palette constant is accepted. -/
theorem colorize_panics_iff (s color : GoString) :
    ((∃ p : Panic, colorize s color = .error p) ↔ ¬ colorPrefix <+: color)
    ∧ (colorPrefix <+: color → colorize s color = .ok (color ++ s ++ reset))
    ∧ reset = [27, 91, 48, 109]
    ∧ colorPrefix = [27, 91, 48, 59, 51]
    ∧ colorPrefix ∉ [reset, red, green, yellow, blue, magenta, cyan]
    ∧ colorize [97] colorPrefix = .ok (colorPrefix ++ [97] ++ reset) := by
  refine ⟨?_, ?_, by decide, by decide, by decide, by decide⟩
  · by_cases h : hasPrefix color colorPrefix = true
    · have hp := (hasPrefix_iff color colorPrefix).mp h
      simp [colorize, h, hp]
    · have hp : ¬ colorPrefix <+: color := fun hp => h ((hasPrefix_iff color colorPrefix).mpr hp)
      simp only [Bool.not_eq_true] at h
      simp [colorize, h, hp]
  · intro hp
    exact colorize_of_hasPrefix s color ((hasPrefix_iff color colorPrefix).mpr hp)

theorem colorize_panics_iff_witness :
    (colorPrefix <+: ([27, 91, 48, 59, 51, 57, 109] : GoString))
      ∧ colorize [97] [27, 91, 48, 59, 51, 57, 109]
        = .ok ([27, 91, 48, 59, 51, 57, 109] ++ [97] ++ reset) :=
  ⟨(hasPrefix_iff _ _).mp (by decide),
    (colorize_panics_iff [97] [27, 91, 48, 59, 51, 57, 109]).2.1
      ((hasPrefix_iff _ _).mp (by decide))⟩

/-- C17: `fitString` returns for every string, all integers `desiredLength` and
`maxAllowedLength` and either `padLeft`.  In the truncation branch the two
halves are `floor(m/2)` and `ceil(m/2)`, both slice bounds are in range and both
slices succeed; in the padding branch the count given to `strings.Repeat` is
positive. -/
theorem fitString_total_in_range (s : GoString) (d : Int) (padLeft : Bool) (m : Int) :
    (∃ t : GoString, fitString s d padLeft m = .ok t)
    ∧ (m > 0 ∧ (s.length : Int) > m →
        Int.tdiv m 2 = ⌊(m : ℚ) / 2⌋
        ∧ Int.tdiv m 2 + Int.tmod m 2 = ⌈(m : ℚ) / 2⌉
        ∧ 0 ≤ Int.tdiv m 2 ∧ Int.tdiv m 2 ≤ (s.length : Int)
        ∧ 0 ≤ (s.length : Int) - (Int.tdiv m 2 + Int.tmod m 2)
        ∧ (s.length : Int) - (Int.tdiv m 2 + Int.tmod m 2) ≤ (s.length : Int)
        ∧ (∃ a : GoString, sliceTo s (Int.tdiv m 2) = .ok a)
        ∧ (∃ b : GoString,
            sliceFrom s ((s.length : Int) - (Int.tdiv m 2 + Int.tmod m 2)) = .ok b))
    ∧ (¬ (m > 0 ∧ (s.length : Int) > m) → (s.length : Int) < d →
        0 < d - (s.length : Int)
        ∧ ∃ pad : GoString, repeatSpace (d - (s.length : Int)) = .ok pad) := by
  refine ⟨fitString_total s d padLeft m, ?_, ?_⟩
  · rintro ⟨hm, hlen⟩
    have hdiv : Int.tdiv m 2 = m / 2 := Int.tdiv_eq_ediv (le_of_lt hm) (by decide)
    have hmod : Int.tmod m 2 = m % 2 := Int.tmod_eq_emod (le_of_lt hm) (by decide)
    have hc1 : 0 ≤ m / 2 ∧ m / 2 ≤ (s.length : Int) := by omega
    have hc2 : 0 ≤ (s.length : Int) - (m / 2 + m % 2)
        ∧ (s.length : Int) - (m / 2 + m % 2) ≤ (s.length : Int) := by omega
    rw [hdiv, hmod, floor_half, ceil_half]
    refine ⟨rfl, by omega, hc1.1, hc1.2, hc2.1, hc2.2, ⟨s.take (m / 2).toNat, ?_⟩,
      ⟨s.drop ((s.length : Int) - (m / 2 + m % 2)).toNat, ?_⟩⟩
    · simp only [sliceTo, if_pos hc1]
    · simp only [sliceFrom, if_pos hc2]
  · intro _ hd
    have hcount : ¬ (d - (s.length : Int) < 0) := by omega
    refine ⟨by omega, ⟨List.replicate (d - (s.length : Int)).toNat space, ?_⟩⟩
    simp only [repeatSpace, if_neg hcount]

theorem fitString_total_in_range_witness :
    ((3 : Int) > 0 ∧ ((([97, 98, 99, 100, 101, 102] : GoString).length : Int) > 3))
      ∧ (∃ a : GoString, sliceTo [97, 98, 99, 100, 101, 102] (Int.tdiv 3 2) = .ok a)
      ∧ (∃ t : GoString, fitString [97, 98, 99, 100, 101, 102] (-4) true 3 = .ok t) :=
  ⟨by decide,
    ((fitString_total_in_range [97, 98, 99, 100, 101, 102] (-4) true 3).2.1
      (by decide)).2.2.2.2.2.2.1,
    (fitString_total_in_range [97, 98, 99, 100, 101, 102] (-4) true 3).1⟩

/-- C18: the panic of `colorize` is not reached from the package: `colorizeStatus`
returns for every integer, the constants `yellow`, `magenta`, `cyan` and `blue`
that `Logger` passes start with `"\033[0;3"` and `colorize` returns with each of
them, and the message of `Logger` and the handler it returns are produced
without a panic. -/
theorem colorize_panic_unreachable {ε : Type} (statusCode : Int) (s : GoString)
    (onError : ε → Context → Context) (now : GoString) (milliseconds : Int)
    (next : HandlerFunc ε) (c : Context) :
    (∃ t : GoString, colorizeStatus statusCode = .ok t)
    ∧ (colorPrefix <+: yellow ∧ colorPrefix <+: magenta ∧ colorPrefix <+: cyan
        ∧ colorPrefix <+: blue)
    ∧ colorize s yellow = .ok (yellow ++ s ++ reset)
    ∧ colorize s magenta = .ok (magenta ++ s ++ reset)
    ∧ colorize s cyan = .ok (cyan ++ s ++ reset)
    ∧ colorize s blue = .ok (blue ++ s ++ reset)
    ∧ (∃ line : GoString, logMessage now milliseconds c.req c.res = .ok line)
    ∧ (∃ r : Option ε × Context, Logger onError now milliseconds next c = .ok r) := by
  refine ⟨colorizeStatus_total statusCode,
    ⟨(hasPrefix_iff _ _).mp (by decide), (hasPrefix_iff _ _).mp (by decide),
      (hasPrefix_iff _ _).mp (by decide), (hasPrefix_iff _ _).mp (by decide)⟩,
    colorize_of_hasPrefix s yellow (by decide), colorize_of_hasPrefix s magenta (by decide),
    colorize_of_hasPrefix s cyan (by decide), colorize_of_hasPrefix s blue (by decide), ?_, ?_⟩
  · obtain ⟨m, p, st, i, o, d, -, -, -, -, -, -, hline⟩ :=
      logMessage_layout now milliseconds c.req c.res
    exact ⟨_, hline⟩
  · obtain ⟨line, -, hlog⟩ := Logger_eq onError now milliseconds next c
    exact ⟨_, hlog⟩

/-! ## The declared content length -/

/-- C13 as stated fails: the header value made of twenty `9` and an `x` is not a
decimal integer, and `getBytesIn` returns `2^63 - 1` for it, not `0`: `Atoi`
reports the overflow of the digits before it reaches the `x`, with the largest
`int` as value. -/
theorem getBytesIn_overflow_before_invalid :
    decimalInteger (List.replicate 20 57 ++ [120]) = none
      ∧ atoi (List.replicate 20 57 ++ [120]) = (9223372036854775807, some .errRange)
      ∧ getBytesIn ⟨[71, 69, 84], [47], List.replicate 20 57 ++ [120]⟩ = 9223372036854775807
      ∧ getBytesIn ⟨[71, 69, 84], [47], List.replicate 20 57 ++ [120]⟩ ≠ 0 := by
  decide

/-- C13, amended: `getBytesIn` is a total function (it cannot fail); it returns
`0` when the `Content-Length` header is absent (empty), and when its value, of
at most 20 bytes, is not a decimal integer; when the value is a decimal integer
(an optional sign and digits) in the range of `int`, it returns that integer. -/
theorem getBytesIn_spec (req : Request) :
    (req.contentLength = [] → getBytesIn req = 0)
    ∧ (decimalInteger req.contentLength = none → req.contentLength.length ≤ 20 →
        getBytesIn req = 0)
    ∧ (∀ v : Int, decimalInteger req.contentLength = some v → -(2 ^ 63) ≤ v → v < 2 ^ 63 →
        getBytesIn req = v) := by
  obtain ⟨method, path, h⟩ := req
  simp only [getBytesIn]
  cases h with
  | nil =>
    refine ⟨fun _ => by decide, fun _ _ => by decide, ?_⟩
    intro v hv
    simp [decimalInteger] at hv
  | cons c rest =>
    refine ⟨fun hnil => absurd hnil (by simp), ?_, ?_⟩
    · intro hnone hlen
      simp only [List.length_cons] at hlen
      by_cases h45 : c = 45
      · subst h45
        by_cases hr : rest = []
        · exact (atoi_minus rest).1 hr
        · simp only [decimalInteger, if_true, if_neg hr, Option.map_eq_none'] at hnone
          exact (atoi_minus rest).2.2 hr hnone (by omega)
      · by_cases h43 : c = 43
        · subst h43
          by_cases hr : rest = []
          · exact (atoi_plus rest).1 hr
          · simp only [decimalInteger, if_neg h45, if_true, if_neg hr,
              Option.map_eq_none'] at hnone
            exact (atoi_plus rest).2.2 hr hnone (by omega)
        · simp only [decimalInteger, if_neg h45, if_neg h43, Option.map_eq_none'] at hnone
          exact (atoi_unsigned (c :: rest) (by simp) (by simpa using h45)
            (by simpa using h43)).2 hnone (by simpa using hlen)
    · intro v hsome hlo hhi
      by_cases h45 : c = 45
      · subst h45
        by_cases hr : rest = []
        · simp [decimalInteger, hr] at hsome
        · simp only [decimalInteger, if_true, if_neg hr, Option.map_eq_some'] at hsome
          obtain ⟨a, ha, rfl⟩ := hsome
          exact (atoi_minus rest).2.1 a hr ha (by omega)
      · by_cases h43 : c = 43
        · subst h43
          by_cases hr : rest = []
          · simp [decimalInteger, hr] at hsome
          · simp only [decimalInteger, if_neg h45, if_true, if_neg hr,
              Option.map_eq_some'] at hsome
            obtain ⟨a, ha, rfl⟩ := hsome
            exact (atoi_plus rest).2.1 a hr ha (by omega)
        · simp only [decimalInteger, if_neg h45, if_neg h43, Option.map_eq_some'] at hsome
          obtain ⟨a, ha, rfl⟩ := hsome
          exact (atoi_unsigned (c :: rest) (by simp) (by simpa using h45)
            (by simpa using h43)).1 a ha (by omega)

theorem getBytesIn_spec_witness :
    (decimalInteger [49, 48, 52, 56, 53, 55, 54] = some 1048576
        ∧ -(2 ^ 63) ≤ (1048576 : Int) ∧ (1048576 : Int) < 2 ^ 63)
      ∧ getBytesIn ⟨[80, 79, 83, 84], [47], [49, 48, 52, 56, 53, 55, 54]⟩ = 1048576 :=
  ⟨by decide,
    (getBytesIn_spec ⟨[80, 79, 83, 84], [47], [49, 48, 52, 56, 53, 55, 54]⟩).2.2 1048576
      (by decide) (by decide) (by decide)⟩

/-! ## The width of the byte fields -/

/-- C19: for `0 <= n < 2^40`, `formatBytes(n)` has at most 9 bytes and the field
`fitString(formatBytes(n), 9, true, 0)` of `Logger` has exactly 9; from
`n = 10000 * 2^30` on, where the value in `Gb` has five integer digits or more,
`formatBytes(n)` has more than 9 bytes and the field is `formatBytes(n)` itself,
not truncated.  `2^40 - 1` gives `"1024.00Gb"` and `10000 * 2^30` gives
`"10000.00Gb"`. -/
theorem formatBytes_field_width (n : Int) :
    (0 ≤ n → n < 2 ^ 40 →
      (formatBytes n).length ≤ 9
      ∧ ∃ t : GoString, fitString (formatBytes n) 9 true 0 = .ok t ∧ t.length = 9)
    ∧ (10000 * 2 ^ 30 ≤ n → n < 2 ^ 63 →
      9 < (formatBytes n).length
      ∧ fitString (formatBytes n) 9 true 0 = .ok (formatBytes n))
    ∧ formatBytes (2 ^ 40 - 1) = [49, 48, 50, 52, 46, 48, 48, 71, 98]
    ∧ formatBytes (10000 * 2 ^ 30) = [49, 48, 48, 48, 48, 46, 48, 48, 71, 98]
    ∧ fitString (formatBytes (10000 * 2 ^ 30)) 9 true 0
      = .ok [49, 48, 48, 48, 48, 46, 48, 48, 71, 98] := by
  refine ⟨?_, ?_, by decide, by decide, by decide⟩
  · intro h0 h40
    obtain ⟨k, rfl⟩ := Int.eq_ofNat_of_zero_le h0
    have hk : k < 2 ^ 40 := by exact_mod_cast h40
    have hf : float64OfNat k = k := by
      simp only [float64OfNat, if_pos (show k < 2 ^ 53 by omega)]
    have hdig : ∀ m : Nat, m < 10000 → (natDigits m).length ≤ 4 := by
      intro m hm
      have := natDigitsAux_length_le (m + 1) m [] 3 (by omega) (by omega)
      simpa [natDigits] using this
    have hlen : (formatBytes (k : Int)).length ≤ 9 := by
      rw [formatBytes_nat k, hf]
      split_ifs
      · have hb := (roundHalfEven_bounds (100 * k) (2 ^ 30)).2
        have := hdig (roundHalfEven (100 * k) (2 ^ 30) / 100) (by omega)
        simp only [List.length_append, renderHundredths_length, unitGb, List.length_cons,
          List.length_nil]
        omega
      · have hb := (roundHalfEven_bounds (100 * k) (2 ^ 20)).2
        have := hdig (roundHalfEven (100 * k) (2 ^ 20) / 100) (by omega)
        simp only [List.length_append, renderHundredths_length, unitMb, List.length_cons,
          List.length_nil]
        omega
      · have hb := (roundHalfEven_bounds (100 * k) (2 ^ 10)).2
        have := hdig (roundHalfEven (100 * k) (2 ^ 10) / 100) (by omega)
        simp only [List.length_append, renderHundredths_length, unitKb, List.length_cons,
          List.length_nil]
        omega
      · have hb := (roundHalfEven_bounds (100 * k) (2 ^ 0)).2
        have := hdig (roundHalfEven (100 * k) (2 ^ 0) / 100) (by omega)
        simp only [List.length_append, renderHundredths_length, unitB, List.length_cons,
          List.length_nil]
        omega
    refine ⟨hlen, ?_⟩
    obtain ⟨t, ht⟩ := fitString_total (formatBytes (k : Int)) 9 true 0
    have hmax := fitString_no_truncate_length _ t 9 true 0 (Or.inl le_rfl) ht
    exact ⟨t, ht, by omega⟩
  · intro hlo hhi
    have h0 : 0 ≤ n := by omega
    obtain ⟨k, rfl⟩ := Int.eq_ofNat_of_zero_le h0
    have hk : 10000 * 2 ^ 30 ≤ k := by exact_mod_cast hlo
    have hf : 10000 * 2 ^ 30 ≤ float64OfNat k := by
      by_cases h53 : k < 2 ^ 53
      · simp only [float64OfNat, if_pos h53]
        exact hk
      · have := float64OfNat_lower k
        omega
    have hlen : 9 < (formatBytes (k : Int)).length := by
      rw [formatBytes_nat k, if_pos (show 2 ^ 30 ≤ k by omega)]
      have hb := (roundHalfEven_bounds (100 * float64OfNat k) (2 ^ 30)).1
      have hh : 10 ^ 4 ≤ roundHalfEven (100 * float64OfNat k) (2 ^ 30) / 100 := by omega
      have := natDigitsAux_length_ge (roundHalfEven (100 * float64OfNat k) (2 ^ 30) / 100 + 1)
        (roundHalfEven (100 * float64OfNat k) (2 ^ 30) / 100) [] 4 (by omega) hh
      simp only [List.length_append, renderHundredths_length, unitGb, List.length_cons,
        List.length_nil, natDigits]
      simp only [List.length_nil] at this
      omega
    refine ⟨hlen, ?_⟩
    rw [fitString_no_truncate _ 9 true 0 (Or.inl le_rfl), if_neg (by omega)]

theorem formatBytes_field_width_witness :
    ((0 : Int) ≤ 1048576 ∧ (1048576 : Int) < 2 ^ 40)
      ∧ (formatBytes 1048576).length ≤ 9
      ∧ ∃ t : GoString, fitString (formatBytes 1048576) 9 true 0 = .ok t ∧ t.length = 9 :=
  ⟨by decide, (formatBytes_field_width 1048576).1 (by decide) (by decide)⟩

end PrettyLogger
